import Mathlib

/-!
Verification development for the MayaUsd prim-updater manager
(`lib/mayaUsd/fileio/primUpdaterManager.cpp`): a shallow embedding of the
pull (edit-as-Maya) / push (merge-to-USD) / discard / duplicate
orchestration engine, together with proofs of its specified properties.

Paths are modelled as lists of path elements; node names as lists of
characters.  Fallible external calls (Maya API statuses, job results,
per-node updater outcomes) are parameters of the embedded operations, so
that every exit path of the source is a reachable branch of the model.
-/

namespace PrimUpdaterModel

/-- Model of a node name in either hierarchy, as its character list. -/
abbrev Name := List Char

/-- Model of an `SdfPath`: an absolute, hierarchical address into the
persisted document tree, as the list of its path elements.  The absolute
root path `/` is the empty list. -/
abbrev SdfPath := List Name

/-- Model of `SdfPath::GetPathElementCount`. -/
def pathElementCount (p : SdfPath) : Nat := p.length

/-- Model of `makeDstPath` (primUpdaterManager.cpp): re-root `srcPath`
under `dstRootParentPath` by appending the source path made relative to
the absolute root. -/
def makeDstPath (dstRootParentPath : SdfPath) (srcPath : SdfPath) : SdfPath :=
  dstRootParentPath ++ srcPath

/-- Model of `getDstSdfPath` (primUpdaterManager.cpp): the destination
root path of a push.  A UFE pulled path is modelled as its list of
segments, each segment being a path; a USD object under a proxy shape has
two segments.  If the pulled path has two segments the second (USD)
segment is the destination, with the relative source path appended when
duplicating; otherwise the source path is used unchanged (in-place
merge). -/
def getDstSdfPath (ufePulledPath : List SdfPath) (srcSdfPath : SdfPath) (isCopy : Bool) :
    SdfPath :=
  if ufePulledPath.length = 2 then
    let dstSdfPath := ufePulledPath.getD 1 []
    if isCopy then dstSdfPath ++ srcSdfPath else dstSdfPath
  else srcSdfPath

/-- Result type of `UsdMayaPrimUpdater::pushCopySpecs`. -/
inductive PushCopySpecs where
  | Continue
  | Prune
  | Failed
deriving DecidableEq, Repr

/-- Model of `MayaUsd::TraversalFailure`: the out-of-band signal thrown
by the push traversal callbacks, carrying a reason and the failing
path. -/
structure TraversalFailure where
  reason : String
  path : SdfPath
deriving DecidableEq, Repr

/-- Model of a spec in the exported scratch layer: its name, whether its
path is a prim path (property specs are also visited by the traversal),
the prim type name authored on the spec, and its child specs. -/
inductive SpecTree where
  | node (name : Name) (primPath : Bool) (typeName : Name) (children : List SpecTree)

/-- Name of a spec node. -/
def SpecTree.name : SpecTree → Name
  | .node n _ _ _ => n

/-- Whether the spec node's path is a prim path. -/
def SpecTree.primPath : SpecTree → Bool
  | .node _ b _ _ => b

/-- Type name of a spec node. -/
def SpecTree.typeName : SpecTree → Name
  | .node _ _ t _ => t

/-- Children of a spec node. -/
def SpecTree.children : SpecTree → List SpecTree
  | .node _ _ _ cs => cs

mutual
/-- Well-formedness of a layer spec tree: sibling specs carry distinct
names at every level, as they do in an `SdfLayer`, where child specs are
keyed by name. -/
def wfSpec : SpecTree → Bool
  | .node _ _ _ cs => decide (cs.map SpecTree.name).Nodup && wfForest cs

/-- Well-formedness of a forest of sibling specs. -/
def wfForest : List SpecTree → Bool
  | [] => true
  | c :: cs => wfSpec c && wfForest cs
end

mutual
/-- Model of the pre-order copy pass of `pushCustomize`
(primUpdaterManager.cpp): the composition of `MayaUsd::traverseLayer`
with the `pushCopySpecsFn` callback.  The traversal primitive is
modelled from the spec (its implementation, utils/traverseLayer.h, is
not among the provided sources): it visits specs pre-order, root to
leaves; a `false` callback result prunes that node's children while
siblings are still visited; a thrown `TraversalFailure` aborts the whole
traversal.  The callback is the source one: a non-prim path prunes
without invoking an updater; otherwise an updater is created and
`pushCopySpecs` invoked — `Failed` throws, and descent continues exactly
on `Continue`.  The per-node `pushCopySpecs` outcome is the oracle
`pushResult`.  The source callback's remaining prune branch — no updater
could be created because `TF_VERIFY(primSpec)` failed — is unreachable
here, since the traversal only visits specs of the layer tree itself.
On success the pre-order list of prim paths whose updater was invoked is
returned; `parent` is the path under which the subtree sits. -/
def copyTraverse (pushResult : SdfPath → PushCopySpecs) (parent : SdfPath) :
    SpecTree → Except TraversalFailure (List SdfPath)
  | .node name primPath _ children =>
    let p := parent ++ [name]
    if primPath then
      match pushResult p with
      | .Failed => .error ⟨"PushCopySpecs() failed.", p⟩
      | .Prune => .ok [p]
      | .Continue =>
        match copyTraverseForest pushResult p children with
        | .error e => .error e
        | .ok rest => .ok (p :: rest)
    else .ok []

/-- Copy-pass traversal of a list of sibling specs, left to right. -/
def copyTraverseForest (pushResult : SdfPath → PushCopySpecs) (parent : SdfPath) :
    List SpecTree → Except TraversalFailure (List SdfPath)
  | [] => .ok []
  | t :: ts =>
    match copyTraverse pushResult parent t with
    | .error e => .error e
    | .ok vs =>
      match copyTraverseForest pushResult parent ts with
      | .error e => .error e
      | .ok rest => .ok (vs ++ rest)
end

mutual
/-- Model of the post-order push-end pass of `pushCustomize`
(primUpdaterManager.cpp): `SdfLayer::Traverse` with the `pushEndFn`
callback.  The traversal visits children before their parent (so parent
containers are torn down only after their children); a non-prim path is
a no-op; a failing `pushEnd` throws a `TraversalFailure` carrying the
failing path.  The per-node `pushEnd` outcome is the oracle `pushEndOk`.
On success the list of prim paths whose `pushEnd` was invoked is
returned in visit order. -/
def endTraverse (pushEndOk : SdfPath → Bool) (parent : SdfPath) :
    SpecTree → Except TraversalFailure (List SdfPath)
  | .node name primPath _ children =>
    let p := parent ++ [name]
    match endTraverseForest pushEndOk p children with
    | .error e => .error e
    | .ok vs =>
      if primPath then
        if pushEndOk p then .ok (vs ++ [p])
        else .error ⟨"PushEnd() failed.", p⟩
      else .ok vs

/-- Push-end traversal of a list of sibling specs, left to right. -/
def endTraverseForest (pushEndOk : SdfPath → Bool) (parent : SdfPath) :
    List SpecTree → Except TraversalFailure (List SdfPath)
  | [] => .ok []
  | t :: ts =>
    match endTraverse pushEndOk parent t with
    | .error e => .error e
    | .ok vs =>
      match endTraverseForest pushEndOk parent ts with
      | .error e => .error e
      | .ok rest => .ok (vs ++ rest)
end

/-- Result of `pushCustomize`: overall success, plus (instrumentation)
the lists of prim paths on which `pushCopySpecs` and `pushEnd` were
invoked. -/
structure PushCustomizeResult where
  success : Bool
  copySpecCalls : List SdfPath
  pushEndCalls : List SdfPath
deriving DecidableEq, Repr

/-- Model of `pushCustomize` (primUpdaterManager.cpp).  `src` is the
content of the temporary export layer, `none` when the export produced
an empty source root path or no layer (the function then fails at once).
The pre-order copy traversal runs first; a `TraversalFailure` is caught
at the call site and becomes an overall `false`.  When the operation is
a duplicate (`isCopy`) the function returns right after the copy pass:
the push-end pass is skipped entirely.  Otherwise the post-order
push-end traversal runs, its own `TraversalFailure` again caught and
converted into `false`; no signal escapes the function, whose result is
a plain boolean. -/
def pushCustomize (src : Option SpecTree) (isCopy : Bool)
    (pushResult : SdfPath → PushCopySpecs) (pushEndOk : SdfPath → Bool) :
    PushCustomizeResult :=
  match src with
  | none => ⟨false, [], []⟩
  | some t =>
    match copyTraverse pushResult [] t with
    | .error _ => ⟨false, [], []⟩
    | .ok copyCalls =>
      if isCopy then ⟨true, copyCalls, []⟩
      else
        match endTraverse pushEndOk [] t with
        | .error _ => ⟨false, copyCalls, []⟩
        | .ok endCalls => ⟨true, copyCalls, endCalls⟩

/-- Model of `SdfLayer::GetPrimAtPath` on the scratch layer, searching a
forest of root specs by successive name lookup. -/
def getSpecAtPath (roots : List SpecTree) : SdfPath → Option SpecTree
  | [] => none
  | [n] => roots.find? (fun t => t.name == n)
  | n :: rest =>
    match roots.find? (fun t => t.name == n) with
    | none => none
    | some t => getSpecAtPath t.children rest

/-- Model of a prim updater as resolved by `createUpdater`: the registry
key (type name) used for the factory lookup.  Dispatch itself never
fails (the registry falls back to a default factory), so the key fully
determines the resolved updater. -/
structure Updater where
  registryTypeName : Name
deriving DecidableEq, Repr

/-- Model of `createUpdater` (primUpdaterManager.cpp): resolve the prim
updater for the spec at `srcPath` of the scratch layer `srcLayer`.  The
prim spec at `srcPath` must exist (`TF_VERIFY`), else no updater is
returned.  When `srcPath` is the root of the exported hierarchy (path
element count is one) the registry is keyed by the pulled object's
persisted prim type, `pulledPrimTypeName`; for every other node it is
keyed by the scratch layer's own prim spec type. -/
def createUpdater (pulledPrimTypeName : Name) (srcLayer : List SpecTree)
    (srcPath : SdfPath) : Option Updater :=
  let usePulledPrim := pathElementCount srcPath = 1
  match getSpecAtPath srcLayer srcPath with
  | none => none
  | some primSpec =>
    some ⟨if usePulledPrim then pulledPrimTypeName else primSpec.typeName⟩

/-- Observable events of an operation, recorded in source order in the
manager-state trace.  Each constructor names the source step it stands
for; the record-pair and bookkeeping effects of a step are given by
`MgrState.exec`. -/
inductive Event where
  | readJobImport
  | proxyParenting
  | createPullSet
  | writeRecordPair
  | excludeRender
  | selectPulledNode
  | editAsMayaCall (p : SdfPath)
  | lockParent
  | unlockParent
  | resetSelection
  | pushExportJob
  | includeRender
  | pushCustomizePhase
  | clearPrimRecord
  | deleteMayaNodes
  | removePullParentEvt
  | discardEditsCall (p : SdfPath)
  | autoPull (p : SdfPath)
  | sdfCopySpec (p : SdfPath)
deriving DecidableEq, Repr

/-- State of the prim updater manager and of the bookkeeping the engine
maintains on the scene: the process-wide reentrancy flag `_inPushPull`,
the `_hasPulledPrims` cache, existence of the `__mayaUsd__` pull root
and the number of pull-parent nodes under it, presence of the two halves
of the pull record pair (`Maya:Pull:DagPath` custom data on the prim;
`Pull_UfePath` attribute on the Maya node), the prim paths customized by
per-node updaters so far, and the event trace. -/
structure MgrState where
  inPushPull : Bool
  hasPulledPrims : Bool
  rootExists : Bool
  parentCount : Nat
  primRecord : Bool
  dgRecord : Bool
  customized : List SdfPath
  trace : List Event
deriving DecidableEq, Repr

/-- Execute one event: append it to the trace and apply its effect.
`writeRecordPair` is `writePullInformation`, which writes both halves of
the record pair in one step; `clearPrimRecord` is
`removePullInformation`, which clears the prim-side half only;
`deleteMayaNodes` destroys the pulled Maya nodes and with them the
node-side half; `discardEditsCall` is one per-node
`UsdMayaPrimUpdater::discardEdits`, whose cleanup (modelled from the
spec, the updater implementations being outside the provided sources)
tears down the materialized editable node carrying the node-side half;
`editAsMayaCall` is one per-node pull customization, recorded in
`customized`; `removePullParentEvt` deletes one pull-parent node. -/
def MgrState.exec (st : MgrState) (e : Event) : MgrState :=
  let st1 := { st with trace := st.trace ++ [e] }
  match e with
  | .writeRecordPair => { st1 with primRecord := true, dgRecord := true }
  | .clearPrimRecord => { st1 with primRecord := false }
  | .deleteMayaNodes => { st1 with dgRecord := false }
  | .discardEditsCall _ => { st1 with dgRecord := false }
  | .editAsMayaCall p => { st1 with customized := st1.customized ++ [p] }
  | .removePullParentEvt => { st1 with parentCount := st1.parentCount - 1 }
  | _ => st1

/-- Auto-pull invocations recorded in a trace. -/
def autoPulls (tr : List Event) : List SdfPath :=
  tr.filterMap fun e =>
    match e with
    | .autoPull p => some p
    | _ => none

/-- Model of the `PushPullScope` constructor: if the controlling flag is
clear, set it and remember ownership.  Returns the new flag value and
whether this scope owns the flag. -/
def scopeEnter (flag : Bool) : Bool × Bool := (true, !flag)

/-- Model of the `PushPullScope` destructor: an owning scope clears the
flag; a non-owning one leaves it untouched. -/
def scopeExit (owned : Bool) (flag : Bool) : Bool :=
  if owned then false else flag

/-- Model of a USD prim subtree as walked by `UsdPrimRange` in the
change-notification listener. -/
inductive PrimTree where
  | node (name : Name) (children : List PrimTree)

/-- Name of a prim node. -/
def PrimTree.name : PrimTree → Name
  | .node n _ => n

/-- Model of the `this->editAsMaya(path)` call made by `autoEditFn`
inside the listener: the nested pull operation, abstracted to its
observable outcome (one autonomous pull of `p`), with the reentrancy
guard entered and restored exactly as the nested operation does. -/
def autoPullAction (st : MgrState) (p : SdfPath) : MgrState :=
  let owned := (scopeEnter st.inPushPull).2
  let st1 := { st with inPushPull := (scopeEnter st.inPushPull).1 }
  let st2 := st1.exec (.autoPull p)
  { st2 with inPushPull := scopeExit owned st2.inPushPull }

mutual
/-- Model of the resynced-subtree walk of `onProxyContentChanged`: visit
the prim at `parent ++ [name]`; when `autoEditFn` fires (the oracle `q`
models `Supports::AutoPull` together with `shouldAutoEdit()`), pull that
prim and prune its children (`it.PruneChildren()`); otherwise descend in
default order. -/
def walkResync (q : SdfPath → Bool) (st : MgrState) (parent : SdfPath) :
    PrimTree → MgrState
  | .node name children =>
    let p := parent ++ [name]
    if q p then autoPullAction st p
    else walkResyncForest q (st) p children

/-- Resync walk over a list of sibling prims, left to right. -/
def walkResyncForest (q : SdfPath → Bool) (st : MgrState) (parent : SdfPath) :
    List PrimTree → MgrState
  | [] => st
  | t :: ts => walkResyncForest q (walkResync q st parent t) parent ts
end

/-- Model of one entry of the notice's resynced-paths set: either the
absolute root path (a whole-stage resync, skipped by the listener), or a
resynced subtree sitting under `parent`. -/
inductive ResyncEntry where
  | wholeStage
  | subtree (parent : SdfPath) (t : PrimTree)

/-- Model of one entry of the notice's changed-info-only paths: a prim
property path (carrying the owning prim's path), or some other path. -/
inductive InfoEntry where
  | primProperty (primPath : SdfPath) (propName : Name)
  | nonProperty (p : SdfPath)

/-- Model of a `MayaUsdProxyStageObjectsChangedNotice`. -/
structure ChangeNotice where
  resynced : List ResyncEntry
  changedInfoOnly : List InfoEntry

/-- Info-only processing of the listener: only direct prim property
paths are considered, and only the owning prim is checked (no subtree
walk, no pruning). -/
def processInfoEntry (q : SdfPath → Bool) (st : MgrState) : InfoEntry → MgrState
  | .primProperty primPath _ => if q primPath then autoPullAction st primPath else st
  | .nonProperty _ => st

/-- Model of `PrimUpdaterManager::onProxyContentChanged`: if the
process-wide `_inPushPull` flag is held the listener returns at once and
performs no action.  Otherwise every resynced subtree is walked (the
whole-stage resync signal is skipped) and then every changed-info-only
path is processed. -/
def onProxyContentChanged (q : SdfPath → Bool) (st : MgrState) (n : ChangeNotice) :
    MgrState :=
  if st.inPushPull then st
  else
    let st1 := n.resynced.foldl
      (fun s e =>
        match e with
        | .wholeStage => s
        | .subtree parent t => walkResync q s parent t) st
    n.changedInfoOnly.foldl (processInfoEntry q) st1

/-- Model of `PrimUpdaterManager::findOrCreatePullRoot`: if a
`__mayaUsd__` root is already in the scene it is returned unchanged (in
particular `_hasPulledPrims` is not touched); otherwise one is created
(`createOk` models the Maya DAG-modifier statuses) and the
`_hasPulledPrims` cache flips to true — only on this first creation.
Returns whether a root is now available. -/
def findOrCreatePullRoot (createOk : Bool) (st : MgrState) : Bool × MgrState :=
  if st.rootExists then (true, st)
  else if !createOk then (false, st)
  else (true, { st with rootExists := true, hasPulledPrims := true })

/-- Model of `PrimUpdaterManager::createPullParent`: create one
pull-parent transform under the pull root (`createOk` models the
DAG-modifier statuses). -/
def createPullParent (createOk : Bool) (st : MgrState) : Bool × MgrState :=
  if !createOk then (false, st)
  else (true, { st with parentCount := st.parentCount + 1 })

/-- Model of `PrimUpdaterManager::setupPullParent`: find or create the
pull root, then create the pull parent under it; `parentPathOk` models
`MDagPath::getAPathTo` succeeding.  Returns whether a valid pull-parent
path was produced. -/
def setupPullParent (rootCreateOk parentCreateOk parentPathOk : Bool) (st : MgrState) :
    Bool × MgrState :=
  let r1 := findOrCreatePullRoot rootCreateOk st
  if !r1.1 then (false, r1.2)
  else
    let r2 := createPullParent parentCreateOk r1.2
    if !r2.1 then (false, r2.2)
    else if !parentPathOk then (false, r2.2)
    else (true, r2.2)

/-- Model of `PrimUpdaterManager::removePullParent`: delete the
pull-parent node (`parentValid` models the `TF_VERIFY` on its path and
`deleteParentOk` the deletion status); then, if the pull root is now
childless, delete the pull root as well (`deleteRootOk`) and flip the
`_hasPulledPrims` cache back to false. -/
def removePullParent (parentValid deleteParentOk deleteRootOk : Bool) (st : MgrState) :
    Bool × MgrState :=
  if !parentValid then (false, st)
  else if !deleteParentOk then (false, st)
  else
    let st1 := st.exec .removePullParentEvt
    if st1.rootExists then
      if st1.parentCount = 0 then
        if !deleteRootOk then (false, st1)
        else (true, { st1 with rootExists := false, hasPulledPrims := false })
      else (true, st1)
    else (true, st1)

/-- One node produced by the bulk import job: the Maya node's type name
and the UFE path of the pulled USD prim it materializes. -/
structure ImportedNode where
  mayaTypeName : Name
  path : SdfPath
deriving DecidableEq, Repr

/-- Environment of a pull (edit-as-Maya) run: outcomes of the external
calls the source makes, in source order.  `importedNodes` is what the
`UsdMaya_ReadJob` produces (empty on failure or when nothing was
imported); `editOk` is the per-node `editAsMaya` outcome of the updater
resolved for each imported node; `innerNotices` are the change notices
the stage emits synchronously while the operation runs; `q` is the
listener's auto-edit oracle. -/
structure PullEnv where
  proxyShapeFound : Bool
  pulledPrimValid : Bool
  isCopy : Bool
  rootCreateOk : Bool
  parentCreateOk : Bool
  parentPathOk : Bool
  layerValid : Bool
  importOk : Bool
  importedNodes : List ImportedNode
  pullSetExists : Bool
  editOk : SdfPath → Bool
  innerNotices : List ChangeNotice
  q : SdfPath → Bool

/-- Model of `pullImport` (primUpdaterManager.cpp), the import step of
the pull: bail out on an invalid root layer; run the read job (which can
succeed but import nothing); then, for a real edit (not a
duplicate/copy), run the proxy-accessor parenting, create the pull set
if absent, write the pull record pair (`writePullInformation`, both
halves in one step), exclude the pulled prim from rendering, and select
the new Maya node.  Returns the imported nodes (empty on failure). -/
def pullImport (env : PullEnv) (st : MgrState) : List ImportedNode × MgrState :=
  if !env.layerValid then ([], st)
  else
    let st1 := st.exec .readJobImport
    if !env.importOk || env.importedNodes.isEmpty then ([], st1)
    else if env.isCopy then (env.importedNodes, st1)
    else
      let st2 := st1.exec .proxyParenting
      let st3 := if env.pullSetExists then st2 else st2.exec .createPullSet
      let st4 := st3.exec .writeRecordPair
      let st5 := st4.exec .excludeRender
      let st6 := st5.exec .selectPulledNode
      (env.importedNodes, st6)

/-- Model of `pullCustomize` (primUpdaterManager.cpp), the customization
step of the pull: for each imported node in order, resolve an updater
from the Maya type name and call its `editAsMaya`.  The first failure
aborts the remaining batch and fails the whole step; the engine does not
roll back what earlier updaters of the same batch already applied. -/
def pullCustomize (editOk : SdfPath → Bool) (nodes : List ImportedNode) (st : MgrState) :
    Bool × MgrState :=
  match nodes with
  | [] => (true, st)
  | n :: ns =>
    let st1 := st.exec (.editAsMayaCall n.path)
    if editOk n.path then pullCustomize editOk ns st1
    else (false, st1)

/-- Customization phase and finalization of `editAsMaya`: run the import
then the per-node customization; on success lock the pulled hierarchy
(real edit only).  The synchronous change notices the document edits
emit are delivered to the listener while the reentrancy guard is held. -/
def editAsMayaAfterParent (env : PullEnv) (st : MgrState) : Bool × MgrState :=
  let ri := pullImport env st
  if ri.1.isEmpty then (false, ri.2)
  else
    let rc := pullCustomize env.editOk ri.1 ri.2
    if !rc.1 then (false, rc.2)
    else
      let st3 := if !env.isCopy then rc.2.exec .lockParent else rc.2
      let st4 := env.innerNotices.foldl (onProxyContentChanged env.q) st3
      (true, st4)

/-- Body of `PrimUpdaterManager::editAsMaya` after the reentrancy guard
is in place: set up the pull parent (real edit only; failure aborts),
then import and customize. -/
def editAsMayaBody (env : PullEnv) (st : MgrState) : Bool × MgrState :=
  if env.isCopy then editAsMayaAfterParent env st
  else
    let rs := setupPullParent env.rootCreateOk env.parentCreateOk env.parentPathOk st
    if !rs.1 then (false, rs.2)
    else editAsMayaAfterParent env rs.2

/-- Model of `PrimUpdaterManager::editAsMaya` (the pull operation):
precondition checks (proxy shape and prim resolution) happen before the
`PushPullScope` guard; every exit path after the guard restores the
flag to its prior value through the scope's destructor. -/
def editAsMaya (env : PullEnv) (st0 : MgrState) : Bool × MgrState :=
  if !env.proxyShapeFound then (false, st0)
  else if !env.pulledPrimValid then (false, st0)
  else
    let owned := (scopeEnter st0.inPushPull).2
    let stIn := { st0 with inPushPull := (scopeEnter st0.inPushPull).1 }
    let r := editAsMayaBody env stIn
    (r.1, { r.2 with inPushPull := scopeExit owned r.2.inPushPull })

/-- Environment of a merge-to-USD run: outcomes of the external calls
the source makes.  `exportOk` is the `UsdMaya_WriteJob` producing a
non-empty source root path; `srcTree` the content of the temporary
layer; `pushResult`/`pushEndOk` the per-node updater outcomes of the two
push traversals; `deleteNodesOk` the Maya scene cleanup statuses. -/
structure MergeEnv where
  proxyShapeFound : Bool
  pulledPrimValid : Bool
  isCopy : Bool
  pullParentValid : Bool
  exportOk : Bool
  srcTree : SpecTree
  pushResult : SdfPath → PushCopySpecs
  pushEndOk : SdfPath → Bool
  deleteNodesOk : Bool
  removeParentDeleteOk : Bool
  removeRootDeleteOk : Bool
  innerNotices : List ChangeNotice
  q : SdfPath → Bool

/-- Steps of `PrimUpdaterManager::mergeToUsd` up to and including the
customization phase, in source order: unlock the pull parent (real merge
only), reset the selection, run the export job, restore rendering
inclusion (real merge only), and run the push customization. -/
def mergeToUsdPre (env : MergeEnv) (st : MgrState) : MgrState :=
  let st1 := if !env.isCopy then st.exec .unlockParent else st
  let st2 := st1.exec .resetSelection
  let st3 := st2.exec .pushExportJob
  let st4 := if !env.isCopy then st3.exec .includeRender else st3
  st4.exec .pushCustomizePhase

/-- Result of the two push traversals of a merge run: `pushCustomize`
applied to the export result (`none` models the empty source root path
of a failed export). -/
def mergePushCustomize (env : MergeEnv) : PushCustomizeResult :=
  pushCustomize (if env.exportOk then some env.srcTree else none)
    env.isCopy env.pushResult env.pushEndOk

/-- Finalization of a merge run after the customization phase: on
customize success clear the prim-side pull record (real merge only),
delete the pulled Maya nodes, and remove the pull parent (real merge
only). -/
def mergeToUsdPost (env : MergeEnv) (st : MgrState) : Bool × MgrState :=
  if !(mergePushCustomize env).success then (false, st)
  else
    let st7 := if !env.isCopy then st.exec .clearPrimRecord else st
    if !env.deleteNodesOk then (false, st7)
    else
      let st8 := st7.exec .deleteMayaNodes
      if env.isCopy then (true, st8)
      else
        let r9 :=
          removePullParent true env.removeParentDeleteOk env.removeRootDeleteOk st8
        if !r9.1 then (false, r9.2) else (true, r9.2)

/-- Body of `PrimUpdaterManager::mergeToUsd` after the reentrancy guard
is in place: the pull-parent path must verify (real merge only), then
the pre-customization steps run, the synchronous change notices of the
body's document edits are delivered while the guard is held, and the
merge is finalized. -/
def mergeToUsdBody (env : MergeEnv) (st : MgrState) : Bool × MgrState :=
  if !env.isCopy && !env.pullParentValid then (false, st)
  else
    let st5 := mergeToUsdPre env st
    let st6 := env.innerNotices.foldl (onProxyContentChanged env.q) st5
    mergeToUsdPost env st6

/-- Model of `PrimUpdaterManager::mergeToUsd` (the push operation):
precondition checks (proxy shape and pulled prim resolution) happen
before the `PushPullScope` guard; every exit path after the guard
restores the flag to its prior value through the scope's destructor. -/
def mergeToUsd (env : MergeEnv) (st0 : MgrState) : Bool × MgrState :=
  if !env.proxyShapeFound then (false, st0)
  else if !env.pulledPrimValid then (false, st0)
  else
    let owned := (scopeEnter st0.inPushPull).2
    let stIn := { st0 with inPushPull := (scopeEnter st0.inPushPull).1 }
    let r := mergeToUsdBody env stIn
    (r.1, { r.2 with inPushPull := scopeExit owned r.2.inPushPull })

/-- Environment of a discard-edits run.  `pulledNodes` are the pulled
Maya nodes enumerated most-specific-first for the per-node
`discardEdits` calls. -/
structure DiscardEnv where
  proxyShapeFound : Bool
  pullParentValid : Bool
  pulledNodes : List SdfPath
  removeParentDeleteOk : Bool
  removeRootDeleteOk : Bool
  innerNotices : List ChangeNotice
  q : SdfPath → Bool

/-- Steps of `PrimUpdaterManager::discardEdits` before the pull parent
is removed, in source order: unlock the pull parent, reset the
selection, call each pulled node's updater `discardEdits` (best effort,
results ignored), clear the prim-side pull record, and restore rendering
inclusion. -/
def discardEditsPre (env : DiscardEnv) (st : MgrState) : MgrState :=
  let st1 := st.exec .unlockParent
  let st2 := st1.exec .resetSelection
  let st3 := env.pulledNodes.foldl (fun s p => s.exec (.discardEditsCall p)) st2
  let st4 := st3.exec .clearPrimRecord
  st4.exec .includeRender

/-- Body of `PrimUpdaterManager::discardEdits` after the reentrancy
guard is in place: verify the pull parent, run the steps above (notices
of the document edits delivered under the guard), and remove the pull
parent. -/
def discardEditsBody (env : DiscardEnv) (st : MgrState) : Bool × MgrState :=
  if !env.pullParentValid then (false, st)
  else
    let st5 := discardEditsPre env st
    let st6 := env.innerNotices.foldl (onProxyContentChanged env.q) st5
    let r7 := removePullParent true env.removeParentDeleteOk env.removeRootDeleteOk st6
    if !r7.1 then (false, r7.2) else (true, r7.2)

/-- Model of `PrimUpdaterManager::discardEdits`: the proxy-shape check
happens before the `PushPullScope` guard; every later exit path restores
the flag through the scope's destructor. -/
def discardEdits (env : DiscardEnv) (st0 : MgrState) : Bool × MgrState :=
  if !env.proxyShapeFound then (false, st0)
  else
    let owned := (scopeEnter st0.inPushPull).2
    let stIn := { st0 with inPushPull := (scopeEnter st0.inPushPull).1 }
    let r := discardEditsBody env stIn
    (r.1, { r.2 with inPushPull := scopeExit owned r.2.inPushPull })

/-- Model of a prim of the destination USD stage, for the duplicate
operation. -/
inductive UsdNode where
  | node (name : Name) (children : List UsdNode)

/-- Name of a stage prim. -/
def UsdNode.name : UsdNode → Name
  | .node n _ => n

/-- Children of a stage prim. -/
def UsdNode.children : UsdNode → List UsdNode
  | .node _ cs => cs

/-- Model of `UsdStage::GetPrimAtPath(...).IsValid()` on a stage given
by its forest of root prims: the absolute root path always resolves (to
the pseudo-root); other paths resolve by successive child-name lookup. -/
def primExists (roots : List UsdNode) : SdfPath → Bool
  | [] => true
  | n :: rest =>
    match roots.find? (fun t => t.name == n) with
    | none => false
    | some t => primExists t.children rest

/-- Names of the children of the prim at a path, when the prim
exists. -/
def childNames (roots : List UsdNode) : SdfPath → Option (List Name)
  | [] => some (roots.map UsdNode.name)
  | n :: rest =>
    match roots.find? (fun t => t.name == n) with
    | none => none
    | some t => childNames t.children rest

/-- Longest name length in a list of names. -/
def maxNameLen (l : List Name) : Nat :=
  l.foldr (fun n acc => max n.length acc) 0

/-- Modelled from the spec: `ufe::uniqueChildName` (ufe/Utils.cpp, not
among the provided sources) returns a child name for the destination
parent that does not collide with any existing child.  It is modelled by
returning the name unchanged when it is free, and otherwise a fresh name
longer than every existing child name. -/
def uniqueChildName (existing : List Name) (base : Name) : Name :=
  if base ∈ existing then base ++ List.replicate (maxNameLen existing + 1) 'X'
  else base

/-- Model of the destination-root computation of the editable-to-
persisted branch of `PrimUpdaterManager::duplicate` (lines 1068-1078):
the edit target's `MapToSpecPath` is the identity here, so the computed
destination root is the exported source root path; its parent and leaf
name are split off, and when the destination parent prim is valid on the
destination stage the leaf name is made unique among the parent's
existing children before the copy. -/
def dupDstRootPath (dstStage : List UsdNode) (srcRootPath : SdfPath) : SdfPath :=
  let dstRootPath := srcRootPath
  let dstParentPath := dstRootPath.dropLast
  match childNames dstStage dstParentPath, dstRootPath.getLast? with
  | some existing, some nm => dstParentPath ++ [uniqueChildName existing nm]
  | _, _ => dstRootPath

/-- Environment of a duplicate run.  `srcProxyFound`/`dstProxyFound`
model `getProxyShape` on the two paths (a path with a proxy shape
addresses the persisted hierarchy, one without addresses the editable
hierarchy); `pullEnv` drives the persisted-to-editable branch (its
`isCopy` is true: the source sets the copy-operation argument);
`srcRootPath`/`dstStage`/`copySpecOk` drive the editable-to-persisted
branch. -/
structure DupEnv where
  srcProxyFound : Bool
  dstProxyFound : Bool
  srcPrimValid : Bool
  pullEnv : PullEnv
  srcDagValid : Bool
  exportOk : Bool
  srcRootPath : SdfPath
  dstStage : List UsdNode
  copySpecOk : Bool

/-- Body of `PrimUpdaterManager::duplicate` after the reentrancy guard
is in place: persisted-to-editable copies run `pullImport` with the
copy-operation flag set and return true; editable-to-persisted copies
export to a temporary layer, compute a non-colliding destination root
path, and `SdfCopySpec` the exported subtree there; a copy between two
locations of the same data model falls through to the final branch and
fails with no effect on the scene. -/
def duplicateBody (env : DupEnv) (st : MgrState) : Bool × MgrState :=
  if env.srcProxyFound && !env.dstProxyFound then
    if !env.srcPrimValid then (false, st)
    else
      (true, (pullImport env.pullEnv st).2)
  else if !env.srcProxyFound && env.dstProxyFound then
    if !env.srcDagValid then (false, st)
    else
      let st1 := st.exec .pushExportJob
      if !env.exportOk || env.srcRootPath.isEmpty then (false, st1)
      else if !env.copySpecOk then (false, st1)
      else (true, st1.exec (.sdfCopySpec (dupDstRootPath env.dstStage env.srcRootPath)))
  else (false, st)

/-- Model of `PrimUpdaterManager::duplicate`: the `PushPullScope` guard
is entered before any branch is chosen and restored on every exit
path. -/
def duplicate (env : DupEnv) (st0 : MgrState) : Bool × MgrState :=
  let owned := (scopeEnter st0.inPushPull).2
  let stIn := { st0 with inPushPull := (scopeEnter st0.inPushPull).1 }
  let r := duplicateBody env stIn
  (r.1, { r.2 with inPushPull := scopeExit owned r.2.inPushPull })

/-- Structural content of a persisted subtree: per prim its name, type
name, property values, and children. -/
inductive UsdContent where
  | node (name : Name) (typeName : Name) (props : List (Name × Name))
      (children : List UsdContent)

/-- Structural content of a materialized editable subtree: per node its
name, Maya node type, the originating persisted identity retained by the
pull (type name and property values, kept in the import data and in the
per-node metadata the pull writes), and children. -/
inductive MayaContent where
  | node (name : Name) (mayaTypeName : Name) (srcTypeName : Name)
      (props : List (Name × Name)) (children : List MayaContent)

mutual
/-- Modelled from the spec: the bulk import job (`UsdMaya_ReadJob`, not
among the provided sources) walks the persisted subtree and produces its
editable counterpart: each persisted node becomes one editable node of
the mapped editable node type (the mapping may merge several persisted
types into one generic editable type), carrying the originating
persisted identity and property values. -/
def importPrim (typeMap : Name → Name) : UsdContent → MayaContent
  | .node name ty props cs => .node name (typeMap ty) ty props (importForest typeMap cs)

/-- Import of a list of sibling persisted nodes. -/
def importForest (typeMap : Name → Name) : List UsdContent → List MayaContent
  | [] => []
  | c :: cs => importPrim typeMap c :: importForest typeMap cs
end

mutual
/-- Modelled from the spec: the bulk export job (`UsdMaya_WriteJob`) and
the per-node `pushCopySpecs` copy (both outside the provided sources)
write each editable node back to the persisted form recorded for it,
restoring the originating type and property values. -/
def exportNode : MayaContent → UsdContent
  | .node name _ srcTy props cs => .node name srcTy props (exportForest cs)

/-- Export of a list of sibling editable nodes. -/
def exportForest : List MayaContent → List UsdContent
  | [] => []
  | c :: cs => exportNode c :: exportForest cs
end

/-! Concrete fixtures used by the closed witness and counterexample
theorems. -/

/-- Name fixture. -/
def nA : Name := ['A']

/-- Name fixture. -/
def nB : Name := ['B']

/-- Name fixture. -/
def nC : Name := ['C']

/-- Name fixture. -/
def nD : Name := ['D']

/-- Name fixture standing for a prim type name. -/
def nT : Name := ['T']

/-- Name fixture standing for the pulled object's persisted type. -/
def nU : Name := ['U']

/-- Fresh scene: no pulls, no records, guard clear. -/
def st0 : MgrState := ⟨false, false, false, 0, false, false, [], []⟩

/-- Scene with one active pull: record pair present, one pull parent
under the pull root, guard clear. -/
def stPulled : MgrState := ⟨false, true, true, 1, true, true, [], []⟩

/-- Scene with the reentrancy guard held. -/
def stFlag : MgrState := ⟨true, false, false, 0, false, false, [], []⟩

/-- Auto-edit oracle that never fires. -/
def qNone : SdfPath → Bool := fun _ => false

/-- Auto-edit oracle that always fires. -/
def qAll : SdfPath → Bool := fun _ => true

/-- Single resynced prim `B` with no children. -/
def primB : PrimTree := .node nB []

/-- Notice resyncing the subtree rooted at `/B`. -/
def noticeB : ChangeNotice := ⟨[.subtree [] primB], []⟩

/-- Scratch-layer fixture: root `A` with children `B` (itself with child
`D`) and `C`, all prim paths of type `T`. -/
def specTreeABC : SpecTree :=
  .node nA true nT [.node nB true nT [.node nD true nT []], .node nC true nT []]

/-- Per-node copy outcome: prune at `/A/B`, continue elsewhere. -/
def pruneAtB : SdfPath → PushCopySpecs :=
  fun p => if p = [nA, nB] then .Prune else .Continue

/-- Per-node copy outcome: fail at `/A/B`, continue elsewhere. -/
def failAtB : SdfPath → PushCopySpecs :=
  fun p => if p = [nA, nB] then .Failed else .Continue

/-- Per-node copy outcome: continue everywhere. -/
def contAll : SdfPath → PushCopySpecs := fun _ => .Continue

/-- Per-node push-end outcome: succeed everywhere. -/
def peOkAll : SdfPath → Bool := fun _ => true

/-- Per-node push-end outcome: fail at `/A/B`. -/
def peFailB : SdfPath → Bool := fun p => !decide (p = [nA, nB])

/-- Per-node pull customization outcome: succeed everywhere. -/
def editOkAll : SdfPath → Bool := fun _ => true

/-- One imported node materializing the pulled prim `/A`. -/
def nodeA : ImportedNode := ⟨nT, [nA]⟩

/-- Pull environment in which every external call succeeds; not a
copy. -/
def pullEnvOk : PullEnv :=
  ⟨true, true, false, true, true, true, true, true, [nodeA], true, editOkAll, [], qNone⟩

/-- Per-node pull customization outcome: fail at `/B`. -/
def editFailB : SdfPath → Bool := fun p => !decide (p = [nB])

/-- Imported node materializing `/B`. -/
def nodeBI : ImportedNode := ⟨nT, [nB]⟩

/-- Imported node materializing `/C`. -/
def nodeCI : ImportedNode := ⟨nT, [nC]⟩

/-- Pull environment importing three nodes whose customization fails on
the second. -/
def pullEnvFailB : PullEnv :=
  { pullEnvOk with importedNodes := [nodeA, nodeBI, nodeCI], editOk := editFailB }

/-- Merge environment in which every external call succeeds; not a
copy. -/
def mergeEnvOk : MergeEnv :=
  ⟨true, true, false, true, true, specTreeABC, contAll, peOkAll, true, true, true, [], qNone⟩

/-- Discard environment in which every external call succeeds. -/
def discardEnvOk : DiscardEnv :=
  ⟨true, true, [[nA]], true, true, [], qNone⟩

/-- Merge environment whose copy pass fails at `/A/B`. -/
def mergeEnvFailB : MergeEnv :=
  ⟨true, true, false, true, true, specTreeABC, failAtB, peOkAll, true, true, true, [], qNone⟩

/-- Merge environment whose push-end pass fails at `/A/B`. -/
def mergeEnvPeFailB : MergeEnv :=
  ⟨true, true, false, true, true, specTreeABC, contAll, peFailB, true, true, true, [], qNone⟩

/-- Merge environment for a duplicate (copy) push over the same
layer. -/
def mergeEnvCopy : MergeEnv :=
  ⟨true, true, true, true, true, specTreeABC, contAll, peOkAll, true, true, true, [], qNone⟩

/-- Destination-stage fixture for duplicates: root prim `A` with child
`B`. -/
def stageAB : List UsdNode := [.node nA [.node nB []]]

/-- Duplicate environment with both paths in the persisted hierarchy
(both have proxy shapes). -/
def dupEnvBothUsd : DupEnv :=
  ⟨true, true, true, pullEnvOk, true, true, [nA], stageAB, true⟩

/-- Duplicate environment with both paths in the editable hierarchy
(neither has a proxy shape). -/
def dupEnvBothMaya : DupEnv :=
  ⟨false, false, true, pullEnvOk, true, true, [nA], stageAB, true⟩

/-- Scratch-root invariant: the pull root exists exactly when at least
one pull parent exists, and the `_hasPulledPrims` cache mirrors the
root's existence. -/
def RootInvariant (st : MgrState) : Prop :=
  (st.rootExists = true ↔ 0 < st.parentCount) ∧ st.hasPulledPrims = st.rootExists

/-- State reached after invoking the per-node pull customization
updaters of the given imported nodes, in order. -/
def customizeCalls (ns : List ImportedNode) (st : MgrState) : MgrState :=
  ns.foldl (fun s n => s.exec (.editAsMayaCall n.path)) st

/-- The scratch-root bookkeeping fields of a state: pull-root existence,
pull-parent count, and the `_hasPulledPrims` cache. -/
def rootFields (st : MgrState) : Bool × Nat × Bool :=
  (st.rootExists, st.parentCount, st.hasPulledPrims)

theorem exec_inPushPull (st : MgrState) (e : Event) :
    (st.exec e).inPushPull = st.inPushPull := by
  cases e <;> rfl

theorem exec_trace (st : MgrState) (e : Event) :
    (st.exec e).trace = st.trace ++ [e] := by
  cases e <;> rfl

theorem autoPulls_append (l1 l2 : List Event) :
    autoPulls (l1 ++ l2) = autoPulls l1 ++ autoPulls l2 := by
  simp [autoPulls]

theorem onProxy_of_flag (q : SdfPath → Bool) (st : MgrState) (n : ChangeNotice)
    (h : st.inPushPull = true) : onProxyContentChanged q st n = st := by
  simp [onProxyContentChanged, h]

theorem foldl_onProxy_of_flag (q : SdfPath → Bool) (ns : List ChangeNotice)
    (st : MgrState) (h : st.inPushPull = true) :
    ns.foldl (onProxyContentChanged q) st = st := by
  induction ns with
  | nil => rfl
  | cons n rest ih => simp [List.foldl_cons, onProxy_of_flag q st n h, ih]

theorem removePullParent_inPushPull (a b c : Bool) (st : MgrState) :
    (removePullParent a b c st).2.inPushPull = st.inPushPull := by
  simp only [removePullParent]
  split_ifs <;> simp_all [exec_inPushPull]

theorem removePullParent_trace_of_ok (c : Bool) (st : MgrState) :
    (removePullParent true true c st).2.trace = st.trace ++ [.removePullParentEvt] := by
  simp only [removePullParent]
  split_ifs <;> simp_all [exec_trace]

theorem removePullParent_ok (st : MgrState) :
    (removePullParent true true true st).1 = true := by
  simp only [removePullParent]
  split_ifs <;> simp_all

theorem autoPulls_exec (st : MgrState) (e : Event) :
    autoPulls (st.exec e).trace = autoPulls st.trace ++ autoPulls [e] := by
  rw [exec_trace, autoPulls_append]

theorem autoPulls_singleton (e : Event) :
    autoPulls [e] = (match e with | .autoPull p => [p] | _ => []) := by
  cases e <;> rfl

theorem removePullParent_autoPulls (a b c : Bool) (st : MgrState) :
    autoPulls (removePullParent a b c st).2.trace = autoPulls st.trace := by
  simp only [removePullParent]
  split_ifs <;> simp_all [autoPulls_exec, autoPulls_singleton]

theorem pullImport_inPushPull (env : PullEnv) (st : MgrState) :
    (pullImport env st).2.inPushPull = st.inPushPull := by
  simp only [pullImport]
  split_ifs <;> simp_all [exec_inPushPull]

theorem pullImport_autoPulls (env : PullEnv) (st : MgrState) :
    autoPulls (pullImport env st).2.trace = autoPulls st.trace := by
  simp only [pullImport]
  split_ifs <;> simp_all [autoPulls_exec, autoPulls_singleton]

theorem pullCustomize_inPushPull (editOk : SdfPath → Bool) (nodes : List ImportedNode)
    (st : MgrState) : (pullCustomize editOk nodes st).2.inPushPull = st.inPushPull := by
  induction nodes generalizing st with
  | nil => rfl
  | cons n ns ih =>
    simp only [pullCustomize]
    split_ifs <;> simp_all [exec_inPushPull, ih]

theorem pullCustomize_autoPulls (editOk : SdfPath → Bool) (nodes : List ImportedNode)
    (st : MgrState) :
    autoPulls (pullCustomize editOk nodes st).2.trace = autoPulls st.trace := by
  induction nodes generalizing st with
  | nil => rfl
  | cons n ns ih =>
    simp only [pullCustomize]
    split_ifs <;> simp_all [autoPulls_exec, autoPulls_singleton, ih]

theorem setupPullParent_inPushPull (a b c : Bool) (st : MgrState) :
    (setupPullParent a b c st).2.inPushPull = st.inPushPull := by
  simp only [setupPullParent, findOrCreatePullRoot, createPullParent]
  split_ifs <;> simp_all

theorem setupPullParent_autoPulls (a b c : Bool) (st : MgrState) :
    autoPulls (setupPullParent a b c st).2.trace = autoPulls st.trace := by
  simp only [setupPullParent, findOrCreatePullRoot, createPullParent]
  split_ifs <;> simp_all

theorem editAsMayaAfterParent_of_flag (env : PullEnv) (st : MgrState)
    (h : st.inPushPull = true) :
    (editAsMayaAfterParent env st).2.inPushPull = true
      ∧ autoPulls (editAsMayaAfterParent env st).2.trace = autoPulls st.trace := by
  simp only [editAsMayaAfterParent]
  have hi : (pullImport env st).2.inPushPull = true := by
    rw [pullImport_inPushPull]; exact h
  have hia := pullImport_autoPulls env st
  have hc : (pullCustomize env.editOk (pullImport env st).1 (pullImport env st).2).2.inPushPull
      = true := by rw [pullCustomize_inPushPull]; exact hi
  have hca := pullCustomize_autoPulls env.editOk (pullImport env st).1 (pullImport env st).2
  split_ifs with h1 h2 hcp
  · exact ⟨hi, hia⟩
  · exact ⟨hc, by rw [hca, hia]⟩
  · have hY : ((pullCustomize env.editOk (pullImport env st).1
        (pullImport env st).2).2.exec .lockParent).inPushPull = true := by
      simp [exec_inPushPull, hc]
    rw [foldl_onProxy_of_flag env.q env.innerNotices _ hY]
    exact ⟨hY, by simp [autoPulls_exec, autoPulls_singleton, hca, hia]⟩
  · rw [foldl_onProxy_of_flag env.q env.innerNotices _ hc]
    exact ⟨hc, by rw [hca, hia]⟩

theorem mergeToUsdPre_inPushPull (env : MergeEnv) (st : MgrState) :
    (mergeToUsdPre env st).inPushPull = st.inPushPull := by
  simp only [mergeToUsdPre]
  split_ifs <;> simp [exec_inPushPull]

theorem mergeToUsdPre_autoPulls (env : MergeEnv) (st : MgrState) :
    autoPulls (mergeToUsdPre env st).trace = autoPulls st.trace := by
  simp only [mergeToUsdPre]
  split_ifs <;> simp [autoPulls_exec, autoPulls_singleton]

theorem mergeToUsdPost_inPushPull (env : MergeEnv) (st : MgrState) :
    (mergeToUsdPost env st).2.inPushPull = st.inPushPull := by
  simp only [mergeToUsdPost]
  split_ifs <;> simp [exec_inPushPull, removePullParent_inPushPull]

theorem mergeToUsdPost_autoPulls (env : MergeEnv) (st : MgrState) :
    autoPulls (mergeToUsdPost env st).2.trace = autoPulls st.trace := by
  simp only [mergeToUsdPost]
  split_ifs <;>
    simp [autoPulls_exec, autoPulls_singleton, removePullParent_autoPulls]

theorem mergeToUsdBody_of_flag (env : MergeEnv) (st : MgrState)
    (h : st.inPushPull = true) :
    (mergeToUsdBody env st).2.inPushPull = true
      ∧ autoPulls (mergeToUsdBody env st).2.trace = autoPulls st.trace := by
  simp only [mergeToUsdBody]
  split_ifs with h1
  · exact ⟨h, rfl⟩
  · have hY : (mergeToUsdPre env st).inPushPull = true := by
      rw [mergeToUsdPre_inPushPull]; exact h
    rw [foldl_onProxy_of_flag env.q env.innerNotices _ hY]
    constructor
    · rw [mergeToUsdPost_inPushPull]; exact hY
    · rw [mergeToUsdPost_autoPulls, mergeToUsdPre_autoPulls]

theorem foldl_discard_inPushPull (l : List SdfPath) (st : MgrState) :
    (l.foldl (fun s p => s.exec (.discardEditsCall p)) st).inPushPull = st.inPushPull := by
  induction l generalizing st with
  | nil => rfl
  | cons p ps ih => simp [List.foldl_cons, ih, exec_inPushPull]

theorem foldl_discard_autoPulls (l : List SdfPath) (st : MgrState) :
    autoPulls (l.foldl (fun s p => s.exec (.discardEditsCall p)) st).trace
      = autoPulls st.trace := by
  induction l generalizing st with
  | nil => rfl
  | cons p ps ih => simp [List.foldl_cons, ih, autoPulls_exec, autoPulls_singleton]

theorem discardEditsPre_inPushPull (env : DiscardEnv) (st : MgrState) :
    (discardEditsPre env st).inPushPull = st.inPushPull := by
  simp only [discardEditsPre]
  simp [exec_inPushPull, foldl_discard_inPushPull]

theorem discardEditsPre_autoPulls (env : DiscardEnv) (st : MgrState) :
    autoPulls (discardEditsPre env st).trace = autoPulls st.trace := by
  simp only [discardEditsPre]
  simp [autoPulls_exec, autoPulls_singleton, foldl_discard_autoPulls]

theorem discardEditsBody_of_flag (env : DiscardEnv) (st : MgrState)
    (h : st.inPushPull = true) :
    (discardEditsBody env st).2.inPushPull = true
      ∧ autoPulls (discardEditsBody env st).2.trace = autoPulls st.trace := by
  simp only [discardEditsBody]
  have hY : (discardEditsPre env st).inPushPull = true := by
    rw [discardEditsPre_inPushPull]; exact h
  rw [foldl_onProxy_of_flag env.q env.innerNotices _ hY]
  split_ifs with h1 h2
  · exact ⟨h, rfl⟩
  · exact ⟨by rw [removePullParent_inPushPull]; exact hY,
      by rw [removePullParent_autoPulls, discardEditsPre_autoPulls]⟩
  · exact ⟨by rw [removePullParent_inPushPull]; exact hY,
      by rw [removePullParent_autoPulls, discardEditsPre_autoPulls]⟩

theorem duplicateBody_of_flag (env : DupEnv) (st : MgrState) :
    (duplicateBody env st).2.inPushPull = st.inPushPull
      ∧ autoPulls (duplicateBody env st).2.trace = autoPulls st.trace := by
  simp only [duplicateBody]
  split_ifs <;>
    simp [pullImport_inPushPull, pullImport_autoPulls, exec_inPushPull,
      autoPulls_exec, autoPulls_singleton]

theorem editAsMayaBody_of_flag (env : PullEnv) (st : MgrState)
    (h : st.inPushPull = true) :
    (editAsMayaBody env st).2.inPushPull = true
      ∧ autoPulls (editAsMayaBody env st).2.trace = autoPulls st.trace := by
  simp only [editAsMayaBody]
  split_ifs with h1 h2
  · exact editAsMayaAfterParent_of_flag env st h
  · simp [setupPullParent_inPushPull, setupPullParent_autoPulls, h]
  · have hs : (setupPullParent env.rootCreateOk env.parentCreateOk env.parentPathOk
        st).2.inPushPull = true := by rw [setupPullParent_inPushPull]; exact h
    have := editAsMayaAfterParent_of_flag env
      (setupPullParent env.rootCreateOk env.parentCreateOk env.parentPathOk st).2 hs
    simpa [setupPullParent_autoPulls] using this

theorem editAsMaya_guard (env : PullEnv) (st0 : MgrState) :
    (editAsMaya env st0).2.inPushPull = st0.inPushPull
      ∧ autoPulls (editAsMaya env st0).2.trace = autoPulls st0.trace := by
  simp only [editAsMaya]
  split_ifs
  · exact ⟨rfl, rfl⟩
  · exact ⟨rfl, rfl⟩
  · have hb := editAsMayaBody_of_flag env { st0 with inPushPull := true } rfl
    cases h0 : st0.inPushPull <;>
      simp_all [scopeEnter, scopeExit]

theorem mergeToUsd_guard (env : MergeEnv) (st0 : MgrState) :
    (mergeToUsd env st0).2.inPushPull = st0.inPushPull
      ∧ autoPulls (mergeToUsd env st0).2.trace = autoPulls st0.trace := by
  simp only [mergeToUsd]
  split_ifs
  · exact ⟨rfl, rfl⟩
  · exact ⟨rfl, rfl⟩
  · have hb := mergeToUsdBody_of_flag env { st0 with inPushPull := true } rfl
    cases h0 : st0.inPushPull <;>
      simp_all [scopeEnter, scopeExit]

theorem discardEdits_guard (env : DiscardEnv) (st0 : MgrState) :
    (discardEdits env st0).2.inPushPull = st0.inPushPull
      ∧ autoPulls (discardEdits env st0).2.trace = autoPulls st0.trace := by
  simp only [discardEdits]
  split_ifs
  · exact ⟨rfl, rfl⟩
  · have hb := discardEditsBody_of_flag env { st0 with inPushPull := true } rfl
    cases h0 : st0.inPushPull <;>
      simp_all [scopeEnter, scopeExit]

theorem duplicate_guard (env : DupEnv) (st0 : MgrState) :
    (duplicate env st0).2.inPushPull = st0.inPushPull
      ∧ autoPulls (duplicate env st0).2.trace = autoPulls st0.trace := by
  simp only [duplicate]
  have hb := duplicateBody_of_flag env { st0 with inPushPull := true }
  cases h0 : st0.inPushPull <;>
    simp_all [scopeEnter, scopeExit]

theorem autoPullAction_of_clear (st : MgrState) (p : SdfPath)
    (hf : st.inPushPull = false) :
    autoPullAction st p = { st with trace := st.trace ++ [.autoPull p] } := by
  obtain ⟨f, a, b, c, d, e2, g, tr⟩ := st
  simp at hf
  subst hf
  simp [autoPullAction, MgrState.exec, scopeEnter, scopeExit]

theorem walkResync_root_qualifies (q : SdfPath → Bool) (st : MgrState)
    (parent : SdfPath) (t : PrimTree) (hq : q (parent ++ [t.name]) = true) :
    walkResync q st parent t = autoPullAction st (parent ++ [t.name]) := by
  cases t with
  | node name cs =>
    simp [PrimTree.name] at hq
    simp [walkResync, PrimTree.name, hq]

theorem onProxy_single_qualifying (q : SdfPath → Bool) (st : MgrState)
    (parent : SdfPath) (t : PrimTree) (hf : st.inPushPull = false)
    (hq : q (parent ++ [t.name]) = true) :
    onProxyContentChanged q st ⟨[.subtree parent t], []⟩
      = { st with trace := st.trace ++ [.autoPull (parent ++ [t.name])] } := by
  simp [onProxyContentChanged, hf, walkResync_root_qualifies q st parent t hq,
    autoPullAction_of_clear st _ hf]

/-- C1: while any pull (editAsMaya), merge (mergeToUsd), discard
(discardEdits) or duplicate operation is in progress the process-wide
reentrancy flag is set (the `PushPullScope` constructor always leaves it
set) and the change-notification listener `onProxyContentChanged`
performs no action, so none of the four operations ever adds an
autonomous pull no matter what notices fire while they run; after each
operation returns the flag is restored to its prior value on every exit
path; and a subsequent independent notification for a qualifying node,
received with the flag clear, triggers exactly one pull. -/
theorem claim1_reentrancy_guard :
    (∀ b : Bool, (scopeEnter b).1 = true)
    ∧ (∀ (q : SdfPath → Bool) (st : MgrState) (n : ChangeNotice),
        st.inPushPull = true → onProxyContentChanged q st n = st)
    ∧ (∀ (env : PullEnv) (st : MgrState),
        (editAsMaya env st).2.inPushPull = st.inPushPull
          ∧ autoPulls (editAsMaya env st).2.trace = autoPulls st.trace)
    ∧ (∀ (env : MergeEnv) (st : MgrState),
        (mergeToUsd env st).2.inPushPull = st.inPushPull
          ∧ autoPulls (mergeToUsd env st).2.trace = autoPulls st.trace)
    ∧ (∀ (env : DiscardEnv) (st : MgrState),
        (discardEdits env st).2.inPushPull = st.inPushPull
          ∧ autoPulls (discardEdits env st).2.trace = autoPulls st.trace)
    ∧ (∀ (env : DupEnv) (st : MgrState),
        (duplicate env st).2.inPushPull = st.inPushPull
          ∧ autoPulls (duplicate env st).2.trace = autoPulls st.trace)
    ∧ (∀ (q : SdfPath → Bool) (st : MgrState) (parent : SdfPath) (t : PrimTree),
        st.inPushPull = false → q (parent ++ [t.name]) = true →
          onProxyContentChanged q st ⟨[.subtree parent t], []⟩
            = { st with trace := st.trace ++ [.autoPull (parent ++ [t.name])] }) :=
  ⟨fun _ => rfl, onProxy_of_flag, editAsMaya_guard, mergeToUsd_guard,
    discardEdits_guard, duplicate_guard, onProxy_single_qualifying⟩

/-- Closed instance of C1: with the guard held the listener leaves the
state untouched even for an always-qualifying notice; a merge over a
pulled scene restores the clear flag and adds no autonomous pull; and
the subsequent independent notification for the qualifying prim `/B`
triggers exactly one pull of `/B`. -/
theorem claim1_reentrancy_guard_witness :
    onProxyContentChanged qAll stFlag noticeB = stFlag
      ∧ (mergeToUsd mergeEnvOk stPulled).2.inPushPull = stPulled.inPushPull
      ∧ autoPulls (mergeToUsd mergeEnvOk stPulled).2.trace = autoPulls stPulled.trace
      ∧ onProxyContentChanged qAll st0 ⟨[.subtree [] primB], []⟩
          = { st0 with trace := [.autoPull [nB]] } := by
  refine ⟨claim1_reentrancy_guard.2.1 qAll stFlag noticeB rfl,
    (claim1_reentrancy_guard.2.2.2.1 mergeEnvOk stPulled).1,
    (claim1_reentrancy_guard.2.2.2.1 mergeEnvOk stPulled).2, ?_⟩
  have h := claim1_reentrancy_guard.2.2.2.2.2.2 qAll st0 [] primB rfl rfl
  simpa [st0, primB, PrimTree.name] using h

/-- C5: a duplicate between two locations of the same hierarchy — both
persisted (both paths have proxy shapes) or both editable (neither has
one) — falls through both data-model branches, returns false, and
leaves the scene state exactly as it was: no event is executed and no
bookkeeping field changes (the reentrancy flag is restored by the
guard's destructor). -/
theorem claim5_duplicate_isolation (env : DupEnv) (st : MgrState)
    (h : env.srcProxyFound = env.dstProxyFound) :
    duplicate env st = (false, st) := by
  have hbody : ∀ s : MgrState, duplicateBody env s = (false, s) := by
    intro s
    simp only [duplicateBody]
    cases hv : env.srcProxyFound <;> simp [hv, ← h]
  obtain ⟨f, a, b, c, d, e2, g, tr⟩ := st
  cases f <;> simp [duplicate, hbody, scopeEnter, scopeExit]

/-- Closed instance of C5: both-persisted and both-editable duplicates
from the fresh scene return false and leave it untouched. -/
theorem claim5_duplicate_isolation_witness :
    duplicate dupEnvBothUsd st0 = (false, st0)
      ∧ duplicate dupEnvBothMaya st0 = (false, st0) :=
  ⟨claim5_duplicate_isolation dupEnvBothUsd st0 rfl,
   claim5_duplicate_isolation dupEnvBothMaya st0 rfl⟩

theorem RootInvariant_congr {x y : MgrState} (h : rootFields x = rootFields y) :
    RootInvariant x ↔ RootInvariant y := by
  simp only [rootFields, Prod.mk.injEq] at h
  simp [RootInvariant, h.1, h.2.1, h.2.2]

theorem exec_rootFields (st : MgrState) (e : Event)
    (h : e ≠ .removePullParentEvt) : rootFields (st.exec e) = rootFields st := by
  cases e <;> simp_all [MgrState.exec, rootFields]

theorem pullImport_rootFields (env : PullEnv) (st : MgrState) :
    rootFields (pullImport env st).2 = rootFields st := by
  simp only [pullImport]
  split_ifs <;> simp [exec_rootFields]

theorem pullCustomize_rootFields (editOk : SdfPath → Bool) (nodes : List ImportedNode)
    (st : MgrState) : rootFields (pullCustomize editOk nodes st).2 = rootFields st := by
  induction nodes generalizing st with
  | nil => rfl
  | cons n ns ih =>
    simp only [pullCustomize]
    split_ifs <;> simp_all [exec_rootFields, ih]

theorem editAsMayaAfterParent_rootFields (env : PullEnv) (st : MgrState)
    (hf : st.inPushPull = true) :
    rootFields (editAsMayaAfterParent env st).2 = rootFields st := by
  simp only [editAsMayaAfterParent]
  have hi : (pullImport env st).2.inPushPull = true := by
    rw [pullImport_inPushPull]; exact hf
  have hc : (pullCustomize env.editOk (pullImport env st).1 (pullImport env st).2).2.inPushPull
      = true := by rw [pullCustomize_inPushPull]; exact hi
  split_ifs with h1 h2 hcp
  · exact pullImport_rootFields env st
  · rw [pullCustomize_rootFields, pullImport_rootFields]
  · have hY : ((pullCustomize env.editOk (pullImport env st).1
        (pullImport env st).2).2.exec .lockParent).inPushPull = true := by
      simp [exec_inPushPull, hc]
    rw [foldl_onProxy_of_flag env.q env.innerNotices _ hY]
    rw [exec_rootFields _ _ (by simp), pullCustomize_rootFields, pullImport_rootFields]
  · rw [foldl_onProxy_of_flag env.q env.innerNotices _ hc]
    rw [pullCustomize_rootFields, pullImport_rootFields]

theorem setupPullParent_of_ok (a b c : Bool) (st : MgrState)
    (hok : (setupPullParent a b c st).1 = true) :
    (setupPullParent a b c st).2.rootExists = true
      ∧ (setupPullParent a b c st).2.parentCount = st.parentCount + 1
      ∧ (setupPullParent a b c st).2.hasPulledPrims
          = (if st.rootExists then st.hasPulledPrims else true)
      ∧ (setupPullParent a b c st).2.inPushPull = st.inPushPull := by
  simp only [setupPullParent, findOrCreatePullRoot, createPullParent] at hok ⊢
  split_ifs at hok ⊢ <;> simp_all

theorem removePullParent_invariant (b c : Bool) (st : MgrState)
    (hok : (removePullParent true b c st).1 = true) (hinv : RootInvariant st) :
    RootInvariant (removePullParent true b c st).2 := by
  obtain ⟨h1, h2⟩ := hinv
  simp only [removePullParent, MgrState.exec] at hok ⊢
  split_ifs at hok ⊢ <;> simp_all [RootInvariant] <;> omega

theorem editAsMayaBody_invariant (env : PullEnv) (st : MgrState)
    (hf : st.inPushPull = true) (hok : (editAsMayaBody env st).1 = true)
    (hinv : RootInvariant st) : RootInvariant (editAsMayaBody env st).2 := by
  simp only [editAsMayaBody] at hok ⊢
  split_ifs at hok ⊢ with h1 h2
  · exact (RootInvariant_congr (editAsMayaAfterParent_rootFields env st hf)).mpr hinv
  · have hs := setupPullParent_of_ok env.rootCreateOk env.parentCreateOk env.parentPathOk st
      (by revert h2; cases setupPullParent env.rootCreateOk env.parentCreateOk
            env.parentPathOk st <;> simp_all)
    have hfa : (setupPullParent env.rootCreateOk env.parentCreateOk
        env.parentPathOk st).2.inPushPull = true := by rw [hs.2.2.2]; exact hf
    rw [RootInvariant_congr (editAsMayaAfterParent_rootFields env _ hfa)]
    refine ⟨by simp [hs.1, hs.2.1], ?_⟩
    rw [hs.1, hs.2.2.1]
    obtain ⟨hi1, hi2⟩ := hinv
    split_ifs with hr
    · rw [hi2, hr]
    · rfl

theorem rootFields_setFlag (x : MgrState) (b : Bool) :
    rootFields { x with inPushPull := b } = rootFields x := rfl

theorem mergeToUsdPre_rootFields (env : MergeEnv) (st : MgrState) :
    rootFields (mergeToUsdPre env st) = rootFields st := by
  simp only [mergeToUsdPre]
  split_ifs <;> simp [exec_rootFields]

theorem mergeToUsdPost_invariant (env : MergeEnv) (st : MgrState)
    (hok : (mergeToUsdPost env st).1 = true) (hinv : RootInvariant st) :
    RootInvariant (mergeToUsdPost env st).2 := by
  by_cases h1 : (mergePushCustomize env).success
  case neg => simp [mergeToUsdPost, h1] at hok
  by_cases h2 : env.deleteNodesOk
  case neg => simp [mergeToUsdPost, h1, h2] at hok
  cases hcopy : env.isCopy
  · simp only [mergeToUsdPost, h1, h2, hcopy, Bool.not_true, Bool.not_false,
      Bool.false_eq_true, if_false, if_true] at hok ⊢
    by_cases h3 : (removePullParent true env.removeParentDeleteOk env.removeRootDeleteOk
        ((st.exec .clearPrimRecord).exec .deleteMayaNodes)).1
    · simp only [h3, Bool.not_true, Bool.false_eq_true, if_false] at hok ⊢
      exact removePullParent_invariant _ _ _ h3
        ((RootInvariant_congr
          (by rw [exec_rootFields _ _ (by simp), exec_rootFields _ _ (by simp)])).mpr hinv)
    · simp [h3] at hok
  · simp only [mergeToUsdPost, h1, h2, hcopy, Bool.not_true, Bool.not_false,
      Bool.false_eq_true, if_false, if_true] at hok ⊢
    exact (RootInvariant_congr (exec_rootFields _ _ (by simp))).mpr hinv

theorem mergeToUsdBody_invariant (env : MergeEnv) (st : MgrState)
    (hf : st.inPushPull = true) (hok : (mergeToUsdBody env st).1 = true)
    (hinv : RootInvariant st) : RootInvariant (mergeToUsdBody env st).2 := by
  simp only [mergeToUsdBody] at hok ⊢
  split_ifs at hok ⊢
  have hY : (mergeToUsdPre env st).inPushPull = true := by
    rw [mergeToUsdPre_inPushPull]; exact hf
  rw [foldl_onProxy_of_flag env.q env.innerNotices _ hY] at hok ⊢
  exact mergeToUsdPost_invariant env _ hok
    ((RootInvariant_congr (mergeToUsdPre_rootFields env st)).mpr hinv)

theorem foldl_discard_rootFields (l : List SdfPath) (st : MgrState) :
    rootFields (l.foldl (fun s p => s.exec (.discardEditsCall p)) st) = rootFields st := by
  induction l generalizing st with
  | nil => rfl
  | cons p ps ih => simp [List.foldl_cons, ih, exec_rootFields]

theorem discardEditsPre_rootFields (env : DiscardEnv) (st : MgrState) :
    rootFields (discardEditsPre env st) = rootFields st := by
  simp only [discardEditsPre]
  rw [exec_rootFields _ _ (by simp), exec_rootFields _ _ (by simp),
    foldl_discard_rootFields, exec_rootFields _ _ (by simp),
    exec_rootFields _ _ (by simp)]

theorem discardEditsBody_invariant (env : DiscardEnv) (st : MgrState)
    (hf : st.inPushPull = true) (hok : (discardEditsBody env st).1 = true)
    (hinv : RootInvariant st) : RootInvariant (discardEditsBody env st).2 := by
  simp only [discardEditsBody] at hok ⊢
  have hY : (discardEditsPre env st).inPushPull = true := by
    rw [discardEditsPre_inPushPull]; exact hf
  rw [foldl_onProxy_of_flag env.q env.innerNotices _ hY] at hok ⊢
  split_ifs at hok ⊢ with h1 h2
  have h7 : (removePullParent true env.removeParentDeleteOk env.removeRootDeleteOk
      (discardEditsPre env st)).1 = true := by
    revert h2
    cases removePullParent true env.removeParentDeleteOk env.removeRootDeleteOk
      (discardEditsPre env st) <;> simp_all
  exact removePullParent_invariant _ _ _ h7
    ((RootInvariant_congr (discardEditsPre_rootFields env st)).mpr hinv)

theorem editAsMaya_invariant (env : PullEnv) (st : MgrState)
    (hok : (editAsMaya env st).1 = true) (hinv : RootInvariant st) :
    RootInvariant (editAsMaya env st).2 := by
  simp only [editAsMaya] at hok ⊢
  split_ifs at hok ⊢
  refine (RootInvariant_congr (rootFields_setFlag _ _)).mpr ?_
  exact editAsMayaBody_invariant env _ rfl hok
    ((RootInvariant_congr (rootFields_setFlag _ _)).mpr hinv)

theorem mergeToUsd_invariant (env : MergeEnv) (st : MgrState)
    (hok : (mergeToUsd env st).1 = true) (hinv : RootInvariant st) :
    RootInvariant (mergeToUsd env st).2 := by
  simp only [mergeToUsd] at hok ⊢
  split_ifs at hok ⊢
  refine (RootInvariant_congr (rootFields_setFlag _ _)).mpr ?_
  exact mergeToUsdBody_invariant env _ rfl hok
    ((RootInvariant_congr (rootFields_setFlag _ _)).mpr hinv)

theorem discardEdits_invariant (env : DiscardEnv) (st : MgrState)
    (hok : (discardEdits env st).1 = true) (hinv : RootInvariant st) :
    RootInvariant (discardEdits env st).2 := by
  simp only [discardEdits] at hok ⊢
  split_ifs at hok ⊢
  refine (RootInvariant_congr (rootFields_setFlag _ _)).mpr ?_
  exact discardEditsBody_invariant env _ rfl hok
    ((RootInvariant_congr (rootFields_setFlag _ _)).mpr hinv)

/-- C3: the pull root exists exactly when at least one pull parent
exists, and the `_hasPulledPrims` cache mirrors it.  Finding an existing
root leaves everything untouched (the flag flips to true only on first
creation of the root); creating it flips the flag to true; removing a
pull parent whose removal empties the pull root also deletes the root
and flips the flag back to false; and the invariant is preserved by
every completed pull, merge and discard. -/
theorem claim3_root_lifecycle :
    (∀ (createOk : Bool) (st : MgrState), st.rootExists = true →
        findOrCreatePullRoot createOk st = (true, st))
    ∧ (∀ st : MgrState, st.rootExists = false →
        (findOrCreatePullRoot true st).2.rootExists = true
          ∧ (findOrCreatePullRoot true st).2.hasPulledPrims = true)
    ∧ (∀ st : MgrState, st.rootExists = true → st.parentCount = 1 →
        (removePullParent true true true st).1 = true
          ∧ (removePullParent true true true st).2.rootExists = false
          ∧ (removePullParent true true true st).2.hasPulledPrims = false
          ∧ (removePullParent true true true st).2.parentCount = 0)
    ∧ (∀ (env : PullEnv) (st : MgrState), (editAsMaya env st).1 = true →
        RootInvariant st → RootInvariant (editAsMaya env st).2)
    ∧ (∀ (env : MergeEnv) (st : MgrState), (mergeToUsd env st).1 = true →
        RootInvariant st → RootInvariant (mergeToUsd env st).2)
    ∧ (∀ (env : DiscardEnv) (st : MgrState), (discardEdits env st).1 = true →
        RootInvariant st → RootInvariant (discardEdits env st).2) := by
  refine ⟨?_, ?_, ?_, editAsMaya_invariant, mergeToUsd_invariant, discardEdits_invariant⟩
  · intro createOk st h
    simp [findOrCreatePullRoot, h]
  · intro st h
    simp [findOrCreatePullRoot, h]
  · intro st h1 h2
    simp [removePullParent, MgrState.exec, h1, h2]

/-- Closed instance of C3: over concrete scenes, an existing root is
found untouched, removing the last pull parent deletes the root and
clears the cache, and a completed pull, merge and discard each preserve
the invariant. -/
theorem claim3_root_lifecycle_witness :
    findOrCreatePullRoot true stPulled = (true, stPulled)
      ∧ (removePullParent true true true stPulled).2.rootExists = false
      ∧ (removePullParent true true true stPulled).2.hasPulledPrims = false
      ∧ RootInvariant (editAsMaya pullEnvOk st0).2
      ∧ RootInvariant (mergeToUsd mergeEnvOk stPulled).2
      ∧ RootInvariant (discardEdits discardEnvOk stPulled).2 := by
  refine ⟨claim3_root_lifecycle.1 true stPulled rfl,
    (claim3_root_lifecycle.2.2.1 stPulled rfl rfl).2.1,
    (claim3_root_lifecycle.2.2.1 stPulled rfl rfl).2.2.1,
    claim3_root_lifecycle.2.2.2.1 pullEnvOk st0 rfl ?_,
    claim3_root_lifecycle.2.2.2.2.1 mergeEnvOk stPulled rfl ?_,
    claim3_root_lifecycle.2.2.2.2.2 discardEnvOk stPulled rfl ?_⟩
  · simp [RootInvariant, st0]
  · simp [RootInvariant, stPulled]
  · simp [RootInvariant, stPulled]

mutual
theorem copyTraverse_mem_starts (pr : SdfPath → PushCopySpecs) (parent : SdfPath)
    (t : SpecTree) (vs : List SdfPath) (h : copyTraverse pr parent t = .ok vs)
    (q : SdfPath) (hq : q ∈ vs) : ∃ more, q = parent ++ t.name :: more := by
  cases t with
  | node name primPath ty children =>
    simp only [copyTraverse, SpecTree.name] at h ⊢
    cases hb : primPath with
    | false =>
      rw [hb] at h
      simp at h
      subst h
      simp at hq
    | true =>
      rw [hb] at h
      simp only [if_true] at h
      cases hpr : pr (parent ++ [name]) with
      | Failed => rw [hpr] at h; simp at h
      | Prune =>
        rw [hpr] at h
        simp at h
        subst h
        simp at hq
        exact ⟨[], by simp [hq]⟩
      | Continue =>
        rw [hpr] at h
        cases hf : copyTraverseForest pr (parent ++ [name]) children with
        | error e => rw [hf] at h; simp at h
        | ok rest =>
          rw [hf] at h
          simp at h
          subst h
          rcases List.mem_cons.mp hq with hq1 | hq2
          · exact ⟨[], by simp [hq1]⟩
          · obtain ⟨t2, _, more, hm⟩ :=
              copyTraverseForest_mem_starts pr (parent ++ [name]) children rest hf q hq2
            exact ⟨t2.name :: more, by simp [hm]⟩

theorem copyTraverseForest_mem_starts (pr : SdfPath → PushCopySpecs) (parent : SdfPath)
    (ts : List SpecTree) (vs : List SdfPath) (h : copyTraverseForest pr parent ts = .ok vs)
    (q : SdfPath) (hq : q ∈ vs) :
    ∃ t2 ∈ ts, ∃ more, q = parent ++ t2.name :: more := by
  cases ts with
  | nil =>
    simp only [copyTraverseForest] at h
    simp at h
    subst h
    simp at hq
  | cons t rest =>
    simp only [copyTraverseForest] at h
    cases h1 : copyTraverse pr parent t with
    | error e => rw [h1] at h; simp at h
    | ok v1 =>
      rw [h1] at h
      cases h2 : copyTraverseForest pr parent rest with
      | error e => rw [h2] at h; simp at h
      | ok v2 =>
        rw [h2] at h
        simp at h
        subst h
        rcases List.mem_append.mp hq with hq1 | hq2
        · obtain ⟨more, hm⟩ := copyTraverse_mem_starts pr parent t v1 h1 q hq1
          exact ⟨t, by simp, more, hm⟩
        · obtain ⟨t2, ht2, more, hm⟩ :=
            copyTraverseForest_mem_starts pr parent rest v2 h2 q hq2
          exact ⟨t2, by simp [ht2], more, hm⟩
end

mutual
theorem copyTraverse_prune_no_desc (pr : SdfPath → PushCopySpecs) (parent : SdfPath)
    (t : SpecTree) (vs : List SdfPath) (hwf : wfSpec t = true)
    (h : copyTraverse pr parent t = .ok vs) (p : SdfPath) (hp : p ∈ vs)
    (hpr : pr p = .Prune) (q : SdfPath) (hq : q ∈ vs) (hne : q ≠ p)
    (rest : SdfPath) : q ≠ p ++ rest := by
  cases t with
  | node name primPath ty children =>
    simp only [wfSpec, Bool.and_eq_true, decide_eq_true_eq] at hwf
    simp only [copyTraverse] at h
    cases hb : primPath with
    | false =>
      rw [hb] at h
      simp at h
      subst h
      simp at hp
    | true =>
      rw [hb] at h
      simp only [if_true] at h
      cases hpr0 : pr (parent ++ [name]) with
      | Failed => rw [hpr0] at h; simp at h
      | Prune =>
        rw [hpr0] at h
        simp at h
        subst h
        simp at hp hq
        exact absurd (hq.trans hp.symm) hne
      | Continue =>
        rw [hpr0] at h
        cases hf : copyTraverseForest pr (parent ++ [name]) children with
        | error e => rw [hf] at h; simp at h
        | ok inner =>
          rw [hf] at h
          simp at h
          subst h
          have hpin : p ∈ inner := by
            rcases List.mem_cons.mp hp with hp1 | hp2
            · rw [hp1] at hpr; rw [hpr] at hpr0; cases hpr0
            · exact hp2
          rcases List.mem_cons.mp hq with hq1 | hq2
          · intro hqr
            obtain ⟨t2, _, more, hm⟩ := copyTraverseForest_mem_starts pr
              (parent ++ [name]) children inner hf p hpin
            have := congrArg List.length (hq1 ▸ hqr)
            rw [hm] at this
            simp at this
          · exact copyTraverseForest_prune_no_desc pr (parent ++ [name]) children inner
              hwf.1 hwf.2 hf p hpin hpr q hq2 hne rest

theorem copyTraverseForest_prune_no_desc (pr : SdfPath → PushCopySpecs)
    (parent : SdfPath) (ts : List SpecTree) (vs : List SdfPath)
    (hnd : (ts.map SpecTree.name).Nodup) (hwf : wfForest ts = true)
    (h : copyTraverseForest pr parent ts = .ok vs) (p : SdfPath) (hp : p ∈ vs)
    (hpr : pr p = .Prune) (q : SdfPath) (hq : q ∈ vs) (hne : q ≠ p)
    (rest : SdfPath) : q ≠ p ++ rest := by
  cases ts with
  | nil =>
    simp only [copyTraverseForest] at h
    simp at h
    subst h
    simp at hp
  | cons t others =>
    simp only [copyTraverseForest] at h
    simp only [List.map_cons, List.nodup_cons] at hnd
    simp only [wfForest, Bool.and_eq_true] at hwf
    cases h1 : copyTraverse pr parent t with
    | error e => rw [h1] at h; simp at h
    | ok v1 =>
      rw [h1] at h
      cases h2 : copyTraverseForest pr parent others with
      | error e => rw [h2] at h; simp at h
      | ok v2 =>
        rw [h2] at h
        simp at h
        subst h
        rcases List.mem_append.mp hp with hp1 | hp2 <;>
          rcases List.mem_append.mp hq with hq1 | hq2
        · exact copyTraverse_prune_no_desc pr parent t v1 hwf.1 h1 p hp1 hpr q hq1 hne rest
        · intro hqr
          obtain ⟨more1, hm1⟩ := copyTraverse_mem_starts pr parent t v1 h1 p hp1
          obtain ⟨t2, ht2, more2, hm2⟩ :=
            copyTraverseForest_mem_starts pr parent others v2 h2 q hq2
          rw [hm1, List.append_assoc] at hqr
          rw [hm2] at hqr
          have hheads := List.append_cancel_left hqr
          simp at hheads
          exact hnd.1 (hheads.1 ▸ List.mem_map_of_mem SpecTree.name ht2)
        · intro hqr
          obtain ⟨t2, ht2, more1, hm1⟩ :=
            copyTraverseForest_mem_starts pr parent others v2 h2 p hp2
          obtain ⟨more2, hm2⟩ := copyTraverse_mem_starts pr parent t v1 h1 q hq1
          rw [hm1, List.append_assoc] at hqr
          rw [hm2] at hqr
          have hheads := List.append_cancel_left hqr
          simp at hheads
          exact hnd.1 (hheads.1.symm ▸ List.mem_map_of_mem SpecTree.name ht2)
        · exact copyTraverseForest_prune_no_desc pr parent others v2 hnd.2 hwf.2 h2
            p hp2 hpr q hq2 hne rest
end

theorem copyTraverse_continue_eq (pr : SdfPath → PushCopySpecs) (parent : SdfPath)
    (name ty : Name) (cs : List SpecTree) (h : pr (parent ++ [name]) = .Continue) :
    copyTraverse pr parent (.node name true ty cs)
      = (copyTraverseForest pr (parent ++ [name]) cs).map
          (fun rest => (parent ++ [name]) :: rest) := by
  simp only [copyTraverse, h]
  cases hf : copyTraverseForest pr (parent ++ [name]) cs <;> simp [Except.map]

theorem copyTraverse_prune_eq (pr : SdfPath → PushCopySpecs) (parent : SdfPath)
    (name ty : Name) (cs : List SpecTree) (h : pr (parent ++ [name]) = .Prune) :
    copyTraverse pr parent (.node name true ty cs) = .ok [parent ++ [name]] := by
  simp [copyTraverse, h]

theorem copyTraverse_failed_eq (pr : SdfPath → PushCopySpecs) (parent : SdfPath)
    (name ty : Name) (cs : List SpecTree) (h : pr (parent ++ [name]) = .Failed) :
    copyTraverse pr parent (.node name true ty cs)
      = .error ⟨"PushCopySpecs() failed.", parent ++ [name]⟩ := by
  simp [copyTraverse, h]

theorem copyTraverseForest_cons_eq (pr : SdfPath → PushCopySpecs) (parent : SdfPath)
    (t : SpecTree) (ts : List SpecTree) (v1 : List SdfPath)
    (h : copyTraverse pr parent t = .ok v1) :
    copyTraverseForest pr parent (t :: ts)
      = (copyTraverseForest pr parent ts).map (fun v2 => v1 ++ v2) := by
  simp only [copyTraverseForest, h]
  cases hf : copyTraverseForest pr parent ts <;> simp [Except.map]

theorem mergePushCustomize_false_of_copy_error (env : MergeEnv) (e : TraversalFailure)
    (h : copyTraverse env.pushResult [] env.srcTree = .error e) :
    (mergePushCustomize env).success = false := by
  simp only [mergePushCustomize, pushCustomize]
  by_cases he : env.exportOk <;> simp [he, h]

theorem mergeToUsd_false_of_pc_false (env : MergeEnv) (st : MgrState)
    (hpc : (mergePushCustomize env).success = false) :
    (mergeToUsd env st).1 = false := by
  simp only [mergeToUsd]
  split_ifs
  · rfl
  · rfl
  · simp only [mergeToUsdBody]
    split_ifs
    · rfl
    · simp [mergeToUsdPost, hpc]

/-- C4: during the pre-order copy traversal of a push, a node whose
`pushCopySpecs` returns `Continue` descends into its children; `Prune`
visits the node but skips its entire subtree — over a well-formed layer
no updater is invoked for any strict descendant of a pruned node — while
the traversal of the remaining siblings is exactly what it would
otherwise be; and `Failed` aborts the traversal with the failing path,
making the whole merge return false. -/
theorem claim4_copy_traversal :
    (∀ (pr : SdfPath → PushCopySpecs) (parent : SdfPath) (name ty : Name)
        (cs : List SpecTree), pr (parent ++ [name]) = .Continue →
        copyTraverse pr parent (.node name true ty cs)
          = (copyTraverseForest pr (parent ++ [name]) cs).map
              (fun rest => (parent ++ [name]) :: rest))
    ∧ (∀ (pr : SdfPath → PushCopySpecs) (parent : SdfPath) (name ty : Name)
        (cs : List SpecTree), pr (parent ++ [name]) = .Prune →
        copyTraverse pr parent (.node name true ty cs) = .ok [parent ++ [name]])
    ∧ (∀ (pr : SdfPath → PushCopySpecs) (parent : SdfPath) (t : SpecTree)
        (vs : List SdfPath), wfSpec t = true → copyTraverse pr parent t = .ok vs →
        ∀ p ∈ vs, pr p = .Prune → ∀ q ∈ vs, q ≠ p → ∀ rest : SdfPath, q ≠ p ++ rest)
    ∧ (∀ (pr : SdfPath → PushCopySpecs) (parent : SdfPath) (t : SpecTree)
        (ts : List SpecTree) (v1 : List SdfPath), copyTraverse pr parent t = .ok v1 →
        copyTraverseForest pr parent (t :: ts)
          = (copyTraverseForest pr parent ts).map (fun v2 => v1 ++ v2))
    ∧ (∀ (pr : SdfPath → PushCopySpecs) (parent : SdfPath) (name ty : Name)
        (cs : List SpecTree), pr (parent ++ [name]) = .Failed →
        copyTraverse pr parent (.node name true ty cs)
          = .error ⟨"PushCopySpecs() failed.", parent ++ [name]⟩)
    ∧ (∀ (env : MergeEnv) (st : MgrState) (e : TraversalFailure),
        copyTraverse env.pushResult [] env.srcTree = .error e →
        (mergeToUsd env st).1 = false) :=
  ⟨copyTraverse_continue_eq, copyTraverse_prune_eq,
    fun pr parent t vs hwf h p hp hpr q hq hne rest =>
      copyTraverse_prune_no_desc pr parent t vs hwf h p hp hpr q hq hne rest,
    copyTraverseForest_cons_eq, copyTraverse_failed_eq,
    fun env st e h =>
      mergeToUsd_false_of_pc_false env st (mergePushCustomize_false_of_copy_error env e h)⟩

/-- Closed instance of C4, on the layer `/A` with children `/A/B` (which
has child `/A/B/D`) and `/A/C`: with `Prune` at `/A/B` the visited set
is exactly `/A`, `/A/B`, `/A/C` — the sibling `/A/C` is visited, no
descendant of `/A/B` is — and with `Failed` at `/A/B` the whole merge
returns false. -/
theorem claim4_copy_traversal_witness :
    copyTraverse pruneAtB [] specTreeABC = .ok [[nA], [nA, nB], [nA, nC]]
      ∧ ([nA, nC] : SdfPath) ≠ [nA, nB] ++ [nD]
      ∧ (mergeToUsd mergeEnvFailB stPulled).1 = false := by
  refine ⟨rfl, ?_, ?_⟩
  · exact claim4_copy_traversal.2.2.1 pruneAtB [] specTreeABC
      [[nA], [nA, nB], [nA, nC]] (by decide) rfl
      [nA, nB] (by decide) (by decide) [nA, nC] (by decide) (by decide) [nD]
  · exact claim4_copy_traversal.2.2.2.2.2 mergeEnvFailB stPulled
      ⟨"PushCopySpecs() failed.", [nA, nB]⟩ rfl

theorem pushCustomize_copy_skips_end (src : Option SpecTree)
    (pr : SdfPath → PushCopySpecs) (pe : SdfPath → Bool) :
    (pushCustomize src true pr pe).pushEndCalls = [] := by
  cases src with
  | none => rfl
  | some t =>
    simp only [pushCustomize]
    cases copyTraverse pr [] t <;> simp

theorem pushCustomize_end_needs_copy_ok (t : SpecTree) (isCopy : Bool)
    (pr : SdfPath → PushCopySpecs) (pe : SdfPath → Bool) (e : TraversalFailure)
    (h : copyTraverse pr [] t = .error e) :
    pushCustomize (some t) isCopy pr pe = ⟨false, [], []⟩ := by
  simp [pushCustomize, h]

theorem pushCustomize_end_error (t : SpecTree) (pr : SdfPath → PushCopySpecs)
    (pe : SdfPath → Bool) (copyCalls : List SdfPath) (e : TraversalFailure)
    (hc : copyTraverse pr [] t = .ok copyCalls) (he : endTraverse pe [] t = .error e) :
    pushCustomize (some t) false pr pe = ⟨false, copyCalls, []⟩ := by
  simp [pushCustomize, hc, he]

theorem pushCustomize_end_ok (t : SpecTree) (pr : SdfPath → PushCopySpecs)
    (pe : SdfPath → Bool) (copyCalls endCalls : List SdfPath)
    (hc : copyTraverse pr [] t = .ok copyCalls) (he : endTraverse pe [] t = .ok endCalls) :
    pushCustomize (some t) false pr pe = ⟨true, copyCalls, endCalls⟩ := by
  simp [pushCustomize, hc, he]

theorem endTraverse_failed_eq (pe : SdfPath → Bool) (parent : SdfPath)
    (name ty : Name) (cs : List SpecTree) (vs : List SdfPath)
    (hf : endTraverseForest pe (parent ++ [name]) cs = .ok vs)
    (hpe : pe (parent ++ [name]) = false) :
    endTraverse pe parent (.node name true ty cs)
      = .error ⟨"PushEnd() failed.", parent ++ [name]⟩ := by
  simp [endTraverse, hf, hpe]

/-- C8: the post-order push-end traversal is skipped entirely for a
duplicate/copy push; it never runs unless the whole pre-order copy pass
succeeded (a failed export or a copy-pass `TraversalFailure` yields no
`pushEnd` call at all, and an overall false); a failing `pushEnd` raises
a `TraversalFailure` carrying the failing path, which is caught at the
traversal call site and converted into `pushCustomize`'s plain boolean
false result — making the whole merge return false — and never
propagates further; when both passes succeed the push-end invocations
happen, after the copy pass. -/
theorem claim8_push_end_traversal :
    (∀ (src : Option SpecTree) (pr : SdfPath → PushCopySpecs) (pe : SdfPath → Bool),
        (pushCustomize src true pr pe).pushEndCalls = [])
    ∧ (∀ (isCopy : Bool) (pr : SdfPath → PushCopySpecs) (pe : SdfPath → Bool),
        pushCustomize none isCopy pr pe = ⟨false, [], []⟩)
    ∧ (∀ (t : SpecTree) (isCopy : Bool) (pr : SdfPath → PushCopySpecs)
        (pe : SdfPath → Bool) (e : TraversalFailure), copyTraverse pr [] t = .error e →
        pushCustomize (some t) isCopy pr pe = ⟨false, [], []⟩)
    ∧ (∀ (pe : SdfPath → Bool) (parent : SdfPath) (name ty : Name) (cs : List SpecTree)
        (vs : List SdfPath), endTraverseForest pe (parent ++ [name]) cs = .ok vs →
        pe (parent ++ [name]) = false →
        endTraverse pe parent (.node name true ty cs)
          = .error ⟨"PushEnd() failed.", parent ++ [name]⟩)
    ∧ (∀ (t : SpecTree) (pr : SdfPath → PushCopySpecs) (pe : SdfPath → Bool)
        (copyCalls : List SdfPath) (e : TraversalFailure),
        copyTraverse pr [] t = .ok copyCalls → endTraverse pe [] t = .error e →
        pushCustomize (some t) false pr pe = ⟨false, copyCalls, []⟩)
    ∧ (∀ (t : SpecTree) (pr : SdfPath → PushCopySpecs) (pe : SdfPath → Bool)
        (copyCalls endCalls : List SdfPath),
        copyTraverse pr [] t = .ok copyCalls → endTraverse pe [] t = .ok endCalls →
        pushCustomize (some t) false pr pe = ⟨true, copyCalls, endCalls⟩)
    ∧ (∀ (env : MergeEnv) (st : MgrState), (mergePushCustomize env).success = false →
        (mergeToUsd env st).1 = false) :=
  ⟨pushCustomize_copy_skips_end, fun _ _ _ => rfl, pushCustomize_end_needs_copy_ok,
    endTraverse_failed_eq, pushCustomize_end_error, pushCustomize_end_ok,
    mergeToUsd_false_of_pc_false⟩

/-- Closed instance of C8: over the concrete layer, a copy push makes no
`pushEnd` call; with `pushEnd` failing at `/A/B` the signal carries
`/A/B`, `pushCustomize` returns false with no push-end call recorded,
and the merge returns false; with both passes succeeding the push-end
calls run post-order, children before parents. -/
theorem claim8_push_end_traversal_witness :
    (pushCustomize (some specTreeABC) true contAll peOkAll).pushEndCalls = []
      ∧ pushCustomize (some specTreeABC) false contAll peFailB
          = ⟨false, [[nA], [nA, nB], [nA, nB, nD], [nA, nC]], []⟩
      ∧ (mergeToUsd mergeEnvPeFailB stPulled).1 = false
      ∧ pushCustomize (some specTreeABC) false contAll peOkAll
          = ⟨true, [[nA], [nA, nB], [nA, nB, nD], [nA, nC]],
              [[nA, nB, nD], [nA, nB], [nA, nC], [nA]]⟩ :=
  ⟨claim8_push_end_traversal.1 (some specTreeABC) contAll peOkAll,
    claim8_push_end_traversal.2.2.2.2.1 specTreeABC contAll peFailB
      [[nA], [nA, nB], [nA, nB, nD], [nA, nC]]
      ⟨"PushEnd() failed.", [nA, nB]⟩ rfl rfl,
    claim8_push_end_traversal.2.2.2.2.2.2 mergeEnvPeFailB stPulled rfl,
    claim8_push_end_traversal.2.2.2.2.2.1 specTreeABC contAll peOkAll
      [[nA], [nA, nB], [nA, nB, nD], [nA, nC]]
      [[nA, nB, nD], [nA, nB], [nA, nC], [nA]] rfl rfl⟩

/-- C7: when the push traversals create an updater, the type name used
for the registry lookup is the pulled object's persisted prim type
exactly when the source path is the root of the exported hierarchy (its
path element count is one), and the scratch layer's own prim spec type
for every other node. -/
theorem claim7_updater_type_selection (pulled : Name) (layer : List SpecTree)
    (srcPath : SdfPath) (spec : SpecTree) (h : getSpecAtPath layer srcPath = some spec) :
    (pathElementCount srcPath = 1 →
        createUpdater pulled layer srcPath = some ⟨pulled⟩)
    ∧ (pathElementCount srcPath ≠ 1 →
        createUpdater pulled layer srcPath = some ⟨spec.typeName⟩) := by
  constructor <;> intro h1 <;> simp [createUpdater, h, h1]

/-- Closed instance of C7: on the concrete layer, the updater for the
root `/A` (one path element) is keyed by the pulled object's persisted
type `U`, while the updater for `/A/B` is keyed by the layer's own spec
type `T`. -/
theorem claim7_updater_type_selection_witness :
    createUpdater nU [specTreeABC] [nA] = some ⟨nU⟩
      ∧ createUpdater nU [specTreeABC] [nA, nB] = some ⟨nT⟩ :=
  ⟨(claim7_updater_type_selection nU [specTreeABC] [nA] specTreeABC rfl).1 rfl,
   (claim7_updater_type_selection nU [specTreeABC] [nA, nB]
      (.node nB true nT [.node nD true nT []]) rfl).2 (by decide)⟩

theorem pullCustomize_first_failure (editOk : SdfPath → Bool)
    (ns1 : List ImportedNode) (bad : ImportedNode) (ns2 : List ImportedNode)
    (st : MgrState) (h1 : ∀ n ∈ ns1, editOk n.path = true)
    (h2 : editOk bad.path = false) :
    pullCustomize editOk (ns1 ++ bad :: ns2) st
      = (false, customizeCalls (ns1 ++ [bad]) st) := by
  induction ns1 generalizing st with
  | nil => simp [pullCustomize, customizeCalls, h2]
  | cons n ns ih =>
    have hn : editOk n.path = true := h1 n (by simp)
    simp only [List.cons_append, pullCustomize, hn, Bool.not_true, Bool.false_eq_true,
      if_false, customizeCalls, List.foldl_cons]
    exact ih _ (fun m hm => h1 m (List.mem_cons_of_mem n hm))

theorem customizeCalls_customized (ns : List ImportedNode) (st : MgrState) :
    (customizeCalls ns st).customized = st.customized ++ ns.map (fun n => n.path) := by
  induction ns generalizing st with
  | nil => simp [customizeCalls]
  | cons n rest ih =>
    simp [customizeCalls, List.foldl_cons, ih, MgrState.exec] at ih ⊢
    rw [ih]
    simp [MgrState.exec]

theorem customizeCalls_trace (ns : List ImportedNode) (st : MgrState) :
    (customizeCalls ns st).trace
      = st.trace ++ ns.map (fun n => Event.editAsMayaCall n.path) := by
  induction ns generalizing st with
  | nil => simp [customizeCalls]
  | cons n rest ih =>
    simp only [customizeCalls, List.foldl_cons, List.map_cons] at ih ⊢
    rw [ih]
    simp [MgrState.exec]

theorem pullCustomize_true_all_ok (editOk : SdfPath → Bool) (ns : List ImportedNode)
    (st : MgrState) (h : (pullCustomize editOk ns st).1 = true) :
    ∀ n ∈ ns, editOk n.path = true := by
  induction ns generalizing st with
  | nil => simp
  | cons n rest ih =>
    simp only [pullCustomize] at h
    by_cases hn : editOk n.path
    · rw [if_pos hn] at h
      intro m hm
      rcases List.mem_cons.mp hm with hm1 | hm2
      · rw [hm1]; exact hn
      · exact ih _ h m hm2
    · rw [if_neg hn] at h
      simp at h

theorem pullImport_fst (env : PullEnv) (s : MgrState) :
    (pullImport env s).1 = [] ∨ (pullImport env s).1 = env.importedNodes := by
  simp only [pullImport]
  split_ifs <;> simp

theorem editAsMayaAfterParent_true (env : PullEnv) (s : MgrState)
    (h : (editAsMayaAfterParent env s).1 = true) :
    (pullImport env s).1 = env.importedNodes
      ∧ (pullCustomize env.editOk (pullImport env s).1 (pullImport env s).2).1 = true := by
  simp only [editAsMayaAfterParent] at h
  by_cases h1 : (pullImport env s).1.isEmpty
  · rw [if_pos h1] at h
    simp at h
  · rw [if_neg h1] at h
    by_cases h2 : (pullCustomize env.editOk (pullImport env s).1 (pullImport env s).2).1
        = true
    · refine ⟨?_, h2⟩
      rcases pullImport_fst env s with hf | hf
      · rw [hf] at h1; simp at h1
      · exact hf
    · have h2f : (pullCustomize env.editOk (pullImport env s).1
          (pullImport env s).2).1 = false := by
        revert h2
        cases (pullCustomize env.editOk (pullImport env s).1 (pullImport env s).2).1 <;>
          simp
      rw [h2f] at h
      simp at h

theorem editAsMaya_false_of_bad (env : PullEnv) (st : MgrState) (bad : ImportedNode)
    (hbad : bad ∈ env.importedNodes) (hfail : env.editOk bad.path = false) :
    (editAsMaya env st).1 = false := by
  have hkey : ∀ s : MgrState, (editAsMayaAfterParent env s).1 = false := by
    intro s
    cases hv : (editAsMayaAfterParent env s).1
    · rfl
    · obtain ⟨hf, hc⟩ := editAsMayaAfterParent_true env s hv
      rw [hf] at hc
      have := pullCustomize_true_all_ok env.editOk env.importedNodes _ hc bad hbad
      rw [hfail] at this
      cases this
  simp only [editAsMaya]
  split_ifs
  · rfl
  · rfl
  · simp only [editAsMayaBody]
    split_ifs
    · simp [hkey]
    · rfl
    · simp [hkey]

/-- C6: in the pull customization phase the first updater whose
`editAsMaya` fails aborts the remaining batch: the function returns
false having invoked exactly the updaters up to and including the
failing one (no later pair's updater is invoked), and the changes the
earlier updaters applied stay applied — the customized set only grows
and the invoked calls remain in the trace.  The failure makes the whole
pull operation return false. -/
theorem claim6_customize_first_failure :
    (∀ (editOk : SdfPath → Bool) (ns1 : List ImportedNode) (bad : ImportedNode)
        (ns2 : List ImportedNode) (st : MgrState),
        (∀ n ∈ ns1, editOk n.path = true) → editOk bad.path = false →
        pullCustomize editOk (ns1 ++ bad :: ns2) st
          = (false, customizeCalls (ns1 ++ [bad]) st))
    ∧ (∀ (ns : List ImportedNode) (st : MgrState),
        (customizeCalls ns st).customized = st.customized ++ ns.map (fun n => n.path))
    ∧ (∀ (ns : List ImportedNode) (st : MgrState),
        (customizeCalls ns st).trace
          = st.trace ++ ns.map (fun n => Event.editAsMayaCall n.path))
    ∧ (∀ (env : PullEnv) (st : MgrState) (bad : ImportedNode),
        bad ∈ env.importedNodes → env.editOk bad.path = false →
        (editAsMaya env st).1 = false) :=
  ⟨pullCustomize_first_failure, customizeCalls_customized, customizeCalls_trace,
    editAsMaya_false_of_bad⟩

/-- Closed instance of C6: with three imported nodes whose second
customization fails, the batch stops after the second updater — the
first updater's effect remains applied, the third is never invoked —
and the pull returns false. -/
theorem claim6_customize_first_failure_witness :
    pullCustomize editFailB ([nodeA] ++ nodeBI :: [nodeCI]) st0
      = (false, customizeCalls [nodeA, nodeBI] st0)
      ∧ (customizeCalls [nodeA, nodeBI] st0).customized = [[nA], [nB]]
      ∧ (editAsMaya pullEnvFailB st0).1 = false := by
  refine ⟨claim6_customize_first_failure.1 editFailB [nodeA] nodeBI [nodeCI] st0
      (by decide) (by decide), ?_, ?_⟩
  · have h := claim6_customize_first_failure.2.1 [nodeA, nodeBI] st0
    simpa [st0, nodeA, nodeBI] using h
  · exact claim6_customize_first_failure.2.2.2 pullEnvFailB st0 nodeBI
      (by decide) (by decide)

mutual
theorem export_import_id (typeMap : Name → Name) (t : UsdContent) :
    exportNode (importPrim typeMap t) = t := by
  cases t with
  | node name ty props cs =>
    simp only [importPrim, exportNode]
    rw [export_import_forest typeMap cs]

theorem export_import_forest (typeMap : Name → Name) (cs : List UsdContent) :
    exportForest (importForest typeMap cs) = cs := by
  cases cs with
  | nil => rfl
  | cons c rest =>
    simp only [importForest, exportForest]
    rw [export_import_id typeMap c, export_import_forest typeMap rest]
end

theorem maxNameLen_ge (l : List Name) (e : Name) (he : e ∈ l) :
    e.length ≤ maxNameLen l := by
  induction l with
  | nil => simp at he
  | cons x xs ih =>
    rcases List.mem_cons.mp he with h | h
    · simp [maxNameLen, h]
    · simp only [maxNameLen, List.foldr_cons]
      exact le_trans (ih h) (le_max_right _ _)

theorem uniqueChildName_not_mem (existing : List Name) (base : Name) :
    uniqueChildName existing base ∉ existing := by
  simp only [uniqueChildName]
  split_ifs with h
  · intro hmem
    have hle := maxNameLen_ge existing _ hmem
    simp at hle
    omega
  · exact h

theorem primExists_last (roots : List UsdNode) (q : SdfPath) (nm : Name)
    (h : primExists roots (q ++ [nm]) = true) :
    ∃ ns, childNames roots q = some ns ∧ nm ∈ ns := by
  induction q generalizing roots with
  | nil =>
    simp only [List.nil_append, primExists] at h
    cases hf : roots.find? (fun t => t.name == nm) with
    | none => rw [hf] at h; cases h
    | some t =>
      refine ⟨roots.map UsdNode.name, rfl, ?_⟩
      have ht := List.find?_some hf
      have hmem := List.mem_of_find?_eq_some hf
      simp at ht
      exact ht ▸ List.mem_map_of_mem UsdNode.name hmem
  | cons x q2 ih =>
    simp only [List.cons_append, primExists] at h
    cases hf : roots.find? (fun t => t.name == x) with
    | none => rw [hf] at h; cases h
    | some t =>
      rw [hf] at h
      obtain ⟨ns, hcn, hnm⟩ := ih t.children h
      exact ⟨ns, by simp [childNames, hf, hcn], hnm⟩

theorem primExists_false_of_not_child (roots : List UsdNode) (q : SdfPath) (nm : Name)
    (ns : List Name) (hcn : childNames roots q = some ns) (hnm : nm ∉ ns) :
    primExists roots (q ++ [nm]) = false := by
  induction q generalizing roots with
  | nil =>
    simp only [childNames, Option.some.injEq] at hcn
    simp only [List.nil_append, primExists]
    cases hf : roots.find? (fun t => t.name == nm) with
    | none => rfl
    | some t =>
      exfalso
      have ht := List.find?_some hf
      have hmem := List.mem_of_find?_eq_some hf
      simp at ht
      exact hnm (hcn ▸ ht ▸ List.mem_map_of_mem UsdNode.name hmem)
  | cons x q2 ih =>
    simp only [childNames] at hcn
    simp only [List.cons_append, primExists]
    cases hf : roots.find? (fun t => t.name == x) with
    | none => rfl
    | some t =>
      rw [hf] at hcn
      exact ih t.children hcn

theorem primExists_false_of_no_parent (roots : List UsdNode) (q : SdfPath) (nm : Name)
    (hcn : childNames roots q = none) :
    primExists roots (q ++ [nm]) = false := by
  induction q generalizing roots with
  | nil => simp [childNames] at hcn
  | cons x q2 ih =>
    simp only [childNames] at hcn
    simp only [List.cons_append, primExists]
    cases hf : roots.find? (fun t => t.name == x) with
    | none => rfl
    | some t =>
      rw [hf] at hcn
      exact ih t.children hcn

/-- C9: pulling a persisted subtree and immediately merging it back with
no intervening edits reproduces the original persisted subtree's
structural content — the whole content tree, hence every property value,
every type name and the hierarchy, is restored, for every (even
non-injective) persisted-to-editable type mapping; and the in-place
merge destination computed by `getDstSdfPath` for a pulled object (a
two-segment UFE path, not a copy) is exactly the original pulled USD
path, so the restored content lands where the subtree came from. -/
theorem claim9_round_trip :
    (∀ (typeMap : Name → Name) (t : UsdContent),
        exportNode (importPrim typeMap t) = t)
    ∧ (∀ (proxySeg usdSeg srcRoot : SdfPath),
        getDstSdfPath [proxySeg, usdSeg] srcRoot false = usdSeg) := by
  refine ⟨export_import_id, ?_⟩
  intro proxySeg usdSeg srcRoot
  simp [getDstSdfPath]

theorem duplicate_dgToUsd_trace (env : DupEnv) (st : MgrState)
    (hs : env.srcProxyFound = false) (hd : env.dstProxyFound = true)
    (hok : (duplicate env st).1 = true) :
    (duplicate env st).2.trace = st.trace
      ++ [.pushExportJob, .sdfCopySpec (dupDstRootPath env.dstStage env.srcRootPath)] := by
  simp only [duplicate, duplicateBody, hs, hd, Bool.false_and, Bool.not_false,
    Bool.not_true, Bool.true_and, Bool.false_eq_true, if_false, if_true] at hok ⊢
  split_ifs at hok ⊢ <;> simp_all [exec_trace]

/-- C10: in an editable-to-persisted duplicate, the computed destination
root path never addresses an existing prim of the destination stage —
`SdfCopySpec` never overwrites an existing persisted prim — and whenever
a prim already exists at the natural destination path, the subtree is
written under a freshly uniquified child name of the destination parent,
one that collides with no existing child; a successful
editable-to-persisted duplicate copies exactly to that computed
destination. -/
theorem claim10_duplicate_no_overwrite (stage : List UsdNode) (q : SdfPath) (nm : Name) :
    primExists stage (dupDstRootPath stage (q ++ [nm])) = false
    ∧ (primExists stage (q ++ [nm]) = true →
        ∃ ns, childNames stage q = some ns ∧ nm ∈ ns
          ∧ dupDstRootPath stage (q ++ [nm]) = q ++ [uniqueChildName ns nm]
          ∧ uniqueChildName ns nm ∉ ns)
    ∧ (∀ (env : DupEnv) (st : MgrState), env.srcProxyFound = false →
        env.dstProxyFound = true → (duplicate env st).1 = true →
        (duplicate env st).2.trace = st.trace
          ++ [.pushExportJob, .sdfCopySpec (dupDstRootPath env.dstStage env.srcRootPath)]) := by
  refine ⟨?_, ?_, duplicate_dgToUsd_trace⟩
  · simp only [dupDstRootPath, List.dropLast_concat, List.getLast?_concat]
    cases hcn : childNames stage q with
    | none => exact primExists_false_of_no_parent stage q nm hcn
    | some ns =>
      exact primExists_false_of_not_child stage q _ ns hcn
        (uniqueChildName_not_mem ns nm)
  · intro hex
    obtain ⟨ns, hcn, hnm⟩ := primExists_last stage q nm hex
    exact ⟨ns, hcn, hnm,
      by simp [dupDstRootPath, List.dropLast_concat, List.getLast?_concat, hcn],
      uniqueChildName_not_mem ns nm⟩

/-- Closed instance of C10: on a stage with root prim `A`, duplicating
an exported root named `A` hits the collision, the destination name is
uniquified to a fresh name among the root's children, and the final
destination addresses no existing prim. -/
theorem claim10_duplicate_no_overwrite_witness :
    primExists stageAB (dupDstRootPath stageAB ([] ++ [nA])) = false
      ∧ (∃ ns, childNames stageAB [] = some ns ∧ nA ∈ ns
          ∧ dupDstRootPath stageAB ([] ++ [nA]) = [] ++ [uniqueChildName ns nA]
          ∧ uniqueChildName ns nA ∉ ns) :=
  ⟨(claim10_duplicate_no_overwrite stageAB [] nA).1,
   (claim10_duplicate_no_overwrite stageAB [] nA).2.1 (by decide)⟩

theorem pullCustomize_all_ok (editOk : SdfPath → Bool) (ns : List ImportedNode)
    (st : MgrState) (h : ∀ n ∈ ns, editOk n.path = true) :
    pullCustomize editOk ns st = (true, customizeCalls ns st) := by
  induction ns generalizing st with
  | nil => simp [pullCustomize, customizeCalls]
  | cons n rest ih =>
    have hn : editOk n.path = true := h n (by simp)
    simp only [pullCustomize, hn, if_true, customizeCalls, List.foldl_cons]
    exact ih _ (fun m hm => h m (List.mem_cons_of_mem n hm))

theorem customizeCalls_records (ns : List ImportedNode) (st : MgrState) :
    (customizeCalls ns st).primRecord = st.primRecord
      ∧ (customizeCalls ns st).dgRecord = st.dgRecord
      ∧ (customizeCalls ns st).inPushPull = st.inPushPull := by
  induction ns generalizing st with
  | nil => exact ⟨rfl, rfl, rfl⟩
  | cons n rest ih =>
    simp only [customizeCalls, List.foldl_cons] at ih ⊢
    rw [(ih _).1, (ih _).2.1, (ih _).2.2]
    simp [MgrState.exec]

theorem setupPullParent_trace (a b c : Bool) (st : MgrState) :
    (setupPullParent a b c st).2.trace = st.trace := by
  simp only [setupPullParent, findOrCreatePullRoot, createPullParent]
  split_ifs <;> simp

theorem setupPullParent_ok_of_true (st : MgrState) :
    (setupPullParent true true true st).1 = true := by
  simp only [setupPullParent, findOrCreatePullRoot, createPullParent]
  split_ifs <;> simp_all

theorem setupPullParent_records (a b c : Bool) (st : MgrState) :
    (setupPullParent a b c st).2.primRecord = st.primRecord
      ∧ (setupPullParent a b c st).2.dgRecord = st.dgRecord := by
  simp only [setupPullParent, findOrCreatePullRoot, createPullParent]
  split_ifs <;> simp_all

/-- Success path of the pull: with every external call succeeding and a
non-copy operation, the pull succeeds, its trace appends the import
steps — the record pair being written right after the import, before the
per-node customization — and both halves of the record pair are present
in the final state. -/
theorem editAsMaya_success (env : PullEnv) (st : MgrState)
    (h1 : env.proxyShapeFound = true) (h2 : env.pulledPrimValid = true)
    (h3 : env.isCopy = false) (h4 : env.rootCreateOk = true)
    (h5 : env.parentCreateOk = true) (h6 : env.parentPathOk = true)
    (h7 : env.layerValid = true) (h8 : env.importOk = true)
    (h9 : env.importedNodes ≠ []) (h10 : env.pullSetExists = true)
    (h11 : ∀ n ∈ env.importedNodes, env.editOk n.path = true) :
    (editAsMaya env st).1 = true
      ∧ (editAsMaya env st).2.trace = st.trace
          ++ [.readJobImport, .proxyParenting, .writeRecordPair, .excludeRender,
              .selectPulledNode]
          ++ env.importedNodes.map (fun n => Event.editAsMayaCall n.path)
          ++ [.lockParent]
      ∧ (editAsMaya env st).2.primRecord = true
      ∧ (editAsMaya env st).2.dgRecord = true := by
  have hsn : (setupPullParent env.rootCreateOk env.parentCreateOk env.parentPathOk
      { st with inPushPull := true }).1 = true := by
    rw [h4, h5, h6]; exact setupPullParent_ok_of_true _
  simp only [editAsMaya, h1, h2, Bool.not_true, Bool.false_eq_true, if_false,
    editAsMayaBody, h3, editAsMayaAfterParent, scopeEnter]
  rw [if_neg (by simp [hsn])]
  have hflag : (setupPullParent env.rootCreateOk env.parentCreateOk env.parentPathOk
      { st with inPushPull := true }).2.inPushPull = true := by
    rw [setupPullParent_inPushPull]
  have htr : (setupPullParent env.rootCreateOk env.parentCreateOk env.parentPathOk
      { st with inPushPull := true }).2.trace = st.trace := setupPullParent_trace _ _ _ _
  have hrec := setupPullParent_records env.rootCreateOk env.parentCreateOk env.parentPathOk
    { st with inPushPull := true }
  set s1 := (setupPullParent env.rootCreateOk env.parentCreateOk env.parentPathOk
    { st with inPushPull := true }).2 with hs1
  have hne : env.importedNodes.isEmpty = false := by simp [h9]
  simp only [pullImport, h7, h3, h8, h10, hne, Bool.not_true, Bool.not_false,
    Bool.false_eq_true, Bool.false_or, Bool.or_false, if_false, if_true]
  rw [pullCustomize_all_ok env.editOk env.importedNodes _ h11]
  simp only [hne, Bool.not_true, Bool.not_false, Bool.false_eq_true, if_false, if_true]
  have hcrec := customizeCalls_records env.importedNodes
    (((((s1.exec .readJobImport).exec .proxyParenting).exec .writeRecordPair).exec
      .excludeRender).exec .selectPulledNode)
  have hcflag : (customizeCalls env.importedNodes
      (((((s1.exec .readJobImport).exec .proxyParenting).exec .writeRecordPair).exec
        .excludeRender).exec .selectPulledNode)).inPushPull = true := by
    rw [hcrec.2.2]
    simp [exec_inPushPull, hflag]
  have hlock : ((customizeCalls env.importedNodes
      (((((s1.exec .readJobImport).exec .proxyParenting).exec .writeRecordPair).exec
        .excludeRender).exec .selectPulledNode)).exec .lockParent).inPushPull = true := by
    simp [exec_inPushPull, hcflag]
  rw [foldl_onProxy_of_flag env.q env.innerNotices _ hlock]
  refine ⟨trivial, ?_, ?_, ?_⟩
  · simp only [exec_trace, customizeCalls_trace, htr]
    simp
  · exact (customizeCalls_records env.importedNodes _).1
  · exact (customizeCalls_records env.importedNodes _).2.1

theorem removePullParent_records (a b c : Bool) (st : MgrState) :
    (removePullParent a b c st).2.primRecord = st.primRecord
      ∧ (removePullParent a b c st).2.dgRecord = st.dgRecord := by
  simp only [removePullParent]
  split_ifs <;> simp_all [MgrState.exec]

/-- Success path of the merge: with every external call succeeding and a
non-copy operation, the merge succeeds; its trace appends, in order, the
unlock, selection reset, export, rendering inclusion and customization
phase, then the prim-side record clear, the Maya node deletion (which
takes the node-side record with it) and the pull-parent removal; and
both halves of the record pair are absent from the final state. -/
theorem mergeToUsd_success (env : MergeEnv) (st : MgrState)
    (h1 : env.proxyShapeFound = true) (h2 : env.pulledPrimValid = true)
    (h3 : env.isCopy = false) (h4 : env.pullParentValid = true)
    (h5 : (mergePushCustomize env).success = true) (h6 : env.deleteNodesOk = true)
    (h7 : env.removeParentDeleteOk = true) (h8 : env.removeRootDeleteOk = true) :
    (mergeToUsd env st).1 = true
      ∧ (mergeToUsd env st).2.trace = st.trace
          ++ [.unlockParent, .resetSelection, .pushExportJob, .includeRender,
              .pushCustomizePhase, .clearPrimRecord, .deleteMayaNodes,
              .removePullParentEvt]
      ∧ (mergeToUsd env st).2.primRecord = false
      ∧ (mergeToUsd env st).2.dgRecord = false := by
  simp only [mergeToUsd, h1, h2, Bool.not_true, Bool.false_eq_true, if_false,
    mergeToUsdBody, h3, h4, Bool.not_false, Bool.and_self, if_true, scopeEnter,
    mergeToUsdPre]
  have hY : ((((({ st with inPushPull := true }.exec .unlockParent).exec
      .resetSelection).exec .pushExportJob).exec .includeRender).exec
        .pushCustomizePhase).inPushPull = true := by
    simp [exec_inPushPull]
  rw [foldl_onProxy_of_flag env.q env.innerNotices _ hY]
  simp only [mergeToUsdPost, h5, h6, h3, Bool.not_true, Bool.not_false,
    Bool.false_eq_true, if_false, if_true]
  rw [h7, h8]
  set s8 := ((((((({ st with inPushPull := true }.exec .unlockParent).exec
    .resetSelection).exec .pushExportJob).exec .includeRender).exec
      .pushCustomizePhase).exec .clearPrimRecord).exec .deleteMayaNodes) with hs8
  have hok := removePullParent_ok s8
  have htr := removePullParent_trace_of_ok true s8
  have hrec := removePullParent_records true true true s8
  simp only [hok, Bool.not_true, Bool.not_false, Bool.true_and, Bool.and_false,
    Bool.false_eq_true, if_false]
  refine ⟨trivial, ?_, ?_, ?_⟩
  · rw [htr]
    simp [hs8, exec_trace]
  · rw [hrec.1]
    simp [hs8, MgrState.exec]
  · rw [hrec.2]
    simp [hs8, MgrState.exec]

theorem foldl_discard_trace (l : List SdfPath) (st : MgrState) :
    (l.foldl (fun s p => s.exec (.discardEditsCall p)) st).trace
      = st.trace ++ l.map (fun p => Event.discardEditsCall p) := by
  induction l generalizing st with
  | nil => simp
  | cons p ps ih =>
    simp only [List.foldl_cons, List.map_cons]
    rw [ih]
    simp [MgrState.exec]

theorem foldl_discard_records (l : List SdfPath) (st : MgrState) :
    (l.foldl (fun s p => s.exec (.discardEditsCall p)) st).primRecord = st.primRecord
      ∧ (l ≠ [] →
          (l.foldl (fun s p => s.exec (.discardEditsCall p)) st).dgRecord = false) := by
  induction l generalizing st with
  | nil => simp
  | cons p ps ih =>
    simp only [List.foldl_cons]
    refine ⟨?_, fun _ => ?_⟩
    · rw [(ih _).1]
      simp [MgrState.exec]
    · rcases hps : ps with _ | ⟨p2, ps2⟩
      · simp [MgrState.exec]
      · rw [← hps]
        exact (ih _).2 (by simp [hps])

/-- Success path of the discard: with every external call succeeding the
discard succeeds; its trace appends the unlock and selection reset, the
per-node `discardEdits` calls, then the prim-side record clear, the
rendering inclusion and the pull-parent removal; the prim-side record is
absent from the final state, and so is the node-side record as soon as
at least one pulled node was discarded. -/
theorem discardEdits_success (env : DiscardEnv) (st : MgrState)
    (h1 : env.proxyShapeFound = true) (h2 : env.pullParentValid = true)
    (h3 : env.removeParentDeleteOk = true) (h4 : env.removeRootDeleteOk = true) :
    (discardEdits env st).1 = true
      ∧ (discardEdits env st).2.trace = st.trace
          ++ [.unlockParent, .resetSelection]
          ++ env.pulledNodes.map (fun p => Event.discardEditsCall p)
          ++ [.clearPrimRecord, .includeRender, .removePullParentEvt]
      ∧ (discardEdits env st).2.primRecord = false
      ∧ (env.pulledNodes ≠ [] → (discardEdits env st).2.dgRecord = false) := by
  simp only [discardEdits, h1, Bool.not_true, Bool.false_eq_true, if_false,
    discardEditsBody, h2, Bool.not_false, if_true, scopeEnter, discardEditsPre]
  have hY : (((env.pulledNodes.foldl
      (fun (s : MgrState) p => s.exec (.discardEditsCall p))
      (({ st with inPushPull := true }.exec .unlockParent).exec
        .resetSelection)).exec .clearPrimRecord).exec .includeRender).inPushPull
        = true := by
    simp [exec_inPushPull, foldl_discard_inPushPull]
  rw [foldl_onProxy_of_flag env.q env.innerNotices _ hY]
  rw [h3, h4]
  set s6 := ((env.pulledNodes.foldl
    (fun (s : MgrState) p => s.exec (.discardEditsCall p))
    (({ st with inPushPull := true }.exec .unlockParent).exec
      .resetSelection)).exec .clearPrimRecord).exec .includeRender with hs6
  have hok := removePullParent_ok s6
  have htr := removePullParent_trace_of_ok true s6
  have hrec := removePullParent_records true true true s6
  simp only [hok, Bool.not_true, Bool.not_false, Bool.true_and, Bool.and_false,
    Bool.false_eq_true, if_false]
  refine ⟨trivial, ?_, ?_, fun hne => ?_⟩
  · rw [htr]
    simp [hs6, exec_trace, foldl_discard_trace]
  · rw [hrec.1]
    simp [hs6, MgrState.exec,
      (foldl_discard_records env.pulledNodes _).1]
  · rw [hrec.2]
    exact (foldl_discard_records env.pulledNodes
      (({ st with inPushPull := true }.exec .unlockParent).exec .resetSelection)).2 hne

/-- C2 counterexample: the claim as stated places the clearing of the
record pair atomically at the START of a merge or discard, and its
creation at the END of a successful pull.  On the concrete successful
runs, the clear event `clearPrimRecord` comes strictly after the export
and customization work of the merge and strictly after the per-node
`discardEdits` calls of the discard — so it is not at the start — and in
the successful pull the record pair is written strictly before the
operation ends (the pull's own trace continues past it), so it is not
created at the end. -/
theorem claim2_record_pair_counterexample :
    ¬ ((mergeToUsd mergeEnvOk stPulled).2.trace.indexOf Event.clearPrimRecord
        < (mergeToUsd mergeEnvOk stPulled).2.trace.indexOf Event.pushExportJob)
      ∧ ¬ ((mergeToUsd mergeEnvOk stPulled).2.trace.indexOf Event.clearPrimRecord
        < (mergeToUsd mergeEnvOk stPulled).2.trace.indexOf Event.pushCustomizePhase)
      ∧ Event.clearPrimRecord ∈ (mergeToUsd mergeEnvOk stPulled).2.trace
      ∧ (mergeToUsd mergeEnvOk stPulled).1 = true
      ∧ ¬ ((discardEdits discardEnvOk stPulled).2.trace.indexOf Event.clearPrimRecord
        < (discardEdits discardEnvOk stPulled).2.trace.indexOf
            (Event.discardEditsCall [nA]))
      ∧ (discardEdits discardEnvOk stPulled).1 = true
      ∧ (editAsMaya pullEnvOk st0).1 = true
      ∧ Event.writeRecordPair ∈ (editAsMaya pullEnvOk st0).2.trace
      ∧ (editAsMaya pullEnvOk st0).2.trace.getLast? ≠ some Event.writeRecordPair := by
  decide

/-- C2 (amended): the PullRecord/PushbackRecord pair is created
atomically — `writePullInformation` writes both halves in one step — at
the end of the import phase of a pull, before the per-node
customization, so a successful pull ends with both halves present; and
during a merge-back the records are cleared only after the push
customization has succeeded (the prim-side record is removed and the
Maya nodes carrying the node-side record are then deleted, before the
pull parent is removed), while during a discard they are cleared after
the per-node `discardEdits` cleanup; a completed merge or discard ends
with both halves absent. -/
theorem claim2_record_pair_lifecycle :
    (∀ st : MgrState, (st.exec .writeRecordPair).primRecord = true
        ∧ (st.exec .writeRecordPair).dgRecord = true)
    ∧ (∀ (env : PullEnv) (st : MgrState),
        env.proxyShapeFound = true → env.pulledPrimValid = true →
        env.isCopy = false → env.rootCreateOk = true → env.parentCreateOk = true →
        env.parentPathOk = true → env.layerValid = true → env.importOk = true →
        env.importedNodes ≠ [] → env.pullSetExists = true →
        (∀ n ∈ env.importedNodes, env.editOk n.path = true) →
        (editAsMaya env st).1 = true
          ∧ (editAsMaya env st).2.trace = st.trace
              ++ [.readJobImport, .proxyParenting, .writeRecordPair, .excludeRender,
                  .selectPulledNode]
              ++ env.importedNodes.map (fun n => Event.editAsMayaCall n.path)
              ++ [.lockParent]
          ∧ (editAsMaya env st).2.primRecord = true
          ∧ (editAsMaya env st).2.dgRecord = true)
    ∧ (∀ (env : MergeEnv) (st : MgrState),
        env.proxyShapeFound = true → env.pulledPrimValid = true →
        env.isCopy = false → env.pullParentValid = true →
        (mergePushCustomize env).success = true → env.deleteNodesOk = true →
        env.removeParentDeleteOk = true → env.removeRootDeleteOk = true →
        (mergeToUsd env st).1 = true
          ∧ (mergeToUsd env st).2.trace = st.trace
              ++ [.unlockParent, .resetSelection, .pushExportJob, .includeRender,
                  .pushCustomizePhase, .clearPrimRecord, .deleteMayaNodes,
                  .removePullParentEvt]
          ∧ (mergeToUsd env st).2.primRecord = false
          ∧ (mergeToUsd env st).2.dgRecord = false)
    ∧ (∀ (env : DiscardEnv) (st : MgrState),
        env.proxyShapeFound = true → env.pullParentValid = true →
        env.removeParentDeleteOk = true → env.removeRootDeleteOk = true →
        (discardEdits env st).1 = true
          ∧ (discardEdits env st).2.trace = st.trace
              ++ [.unlockParent, .resetSelection]
              ++ env.pulledNodes.map (fun p => Event.discardEditsCall p)
              ++ [.clearPrimRecord, .includeRender, .removePullParentEvt]
          ∧ (discardEdits env st).2.primRecord = false
          ∧ (env.pulledNodes ≠ [] → (discardEdits env st).2.dgRecord = false)) :=
  ⟨fun _ => ⟨rfl, rfl⟩, editAsMaya_success, mergeToUsd_success, discardEdits_success⟩

/-- Closed instance of the amended C2 on the concrete success runs: a
single `writeRecordPair` step writes both halves; the successful pull's
trace shows the pair written after the import and before customization,
ending with both records present; the successful merge and discard
traces show the clear after the customization and discard phases, ending
with both records absent. -/
theorem claim2_record_pair_lifecycle_witness :
    ((st0.exec .writeRecordPair).primRecord = true
        ∧ (st0.exec .writeRecordPair).dgRecord = true)
      ∧ ((editAsMaya pullEnvOk st0).2.primRecord = true
        ∧ (editAsMaya pullEnvOk st0).2.dgRecord = true)
      ∧ ((mergeToUsd mergeEnvOk stPulled).2.primRecord = false
        ∧ (mergeToUsd mergeEnvOk stPulled).2.dgRecord = false)
      ∧ ((discardEdits discardEnvOk stPulled).2.primRecord = false
        ∧ (discardEdits discardEnvOk stPulled).2.dgRecord = false) := by
  have hp := claim2_record_pair_lifecycle.2.1 pullEnvOk st0 rfl rfl rfl rfl rfl rfl rfl
    rfl (by decide) rfl (by decide)
  have hm := claim2_record_pair_lifecycle.2.2.1 mergeEnvOk stPulled rfl rfl rfl rfl rfl
    rfl rfl rfl
  have hd := claim2_record_pair_lifecycle.2.2.2 discardEnvOk stPulled rfl rfl rfl rfl
  exact ⟨claim2_record_pair_lifecycle.1 st0, ⟨hp.2.2.1, hp.2.2.2⟩,
    ⟨hm.2.2.1, hm.2.2.2⟩, ⟨hd.2.2.1, hd.2.2.2 (by decide)⟩⟩

end PrimUpdaterModel
